import Mathlib

/-!
Verification development for the Qwen chat renderer
(maga_transformer/openai/renderers/qwen_renderer.py): a shallow embedding of
the conversation normalizer (parse_messages), the template renderer
(make_context / text_complete_last_message / render_chat), the function-call
extractor (_parse_function_response) and the streaming assembler
(render_response_stream), together with theorems about the claims of the
specification.

Python strings are modelled as lists of characters (so len counts code
points, as in Python).  The tokenizer is an external collaborator and is
modelled as an abstract encode function with the two special token ids.
-/

set_option maxHeartbeats 1600000

/-- Python strings as lists of unicode characters. -/
abbrev PyStr := List Char

/-- Convert a Lean string literal to the PyStr model. -/
def pys (s : String) : PyStr := s.data

/-- The whitespace set of Python str.strip()/rstrip() (ASCII part). -/
def pyIsSpace (c : Char) : Bool :=
  c == ' ' || c == '\t' || c == '\n' || c == '\r' || c == '\x0b' || c == '\x0c'

/-- Python s.lstrip("\n"): drop leading newline characters. -/
def pyLstripNl (s : PyStr) : PyStr := s.dropWhile (fun c => c == '\n')

/-- Python s.rstrip(): drop trailing whitespace. -/
def pyRstrip (s : PyStr) : PyStr := (s.reverse.dropWhile pyIsSpace).reverse

/-- Python s.lstrip(): drop leading whitespace. -/
def pyLstripWs (s : PyStr) : PyStr := s.dropWhile pyIsSpace

/-- Python s.strip(): drop whitespace at both ends. -/
def pystrip (s : PyStr) : PyStr := pyLstripWs (pyRstrip s)

/-- Python s[a:b] for non-negative bounds (with clamping). -/
def pySlice (s : PyStr) (a b : Nat) : PyStr := (s.take b).drop a

/-- Python s[:-n]. -/
def pyDropLastN (n : Nat) (s : PyStr) : PyStr := s.take (s.length - n)

/-- Python s.rfind(pat) scanning start positions m, m-1, ..., 0. -/
def rfindFrom (s pat : PyStr) : Nat → Int
  | 0 => if pat.isPrefixOf s then 0 else -1
  | p + 1 => if pat.isPrefixOf (s.drop (p + 1)) then ((p : Int) + 1) else rfindFrom s pat p

/-- Python s.rfind(pat): greatest start index of an occurrence, -1 if none. -/
def pyRfind (s pat : PyStr) : Int := rfindFrom s pat s.length

deriving instance DecidableEq for Except

/-- The roles of a chat message (closed enum of the API datatype). -/
inductive Role where
  | system | user | assistant | function
deriving DecidableEq, Repr

/-- A chat message of the request: role, optional content, optional function call
(name, arguments). -/
structure ChatMessage where
  role : Role
  content : Option PyStr
  function_call : Option (PyStr × PyStr)
deriving DecidableEq, Repr

/-- A normalized message produced by the parse_messages loop. -/
structure NMsg where
  role : Role
  content : PyStr
deriving DecidableEq, Repr

/-- The failure modes of the normalizer: each constructor is one raise site of
parse_messages (ValueErrors), plus the unhandled IndexError/AssertionError paths. -/
inductive Err where
  | noUserMessage
  | expectAssistantBeforeFunction
  | expectUserBeforeAssistant
  | incorrectRole
  | pairMismatch
  | indexError
  | assertionError
deriving DecidableEq, Repr

/-- A function definition of the request; parameters arrive already serialized
(json.dumps is an external collaborator). -/
structure FuncDef where
  name : PyStr
  name_for_model : Option PyStr
  name_for_human : Option PyStr
  description : PyStr
  description_for_model : Option PyStr
  parameters_json : PyStr
deriving DecidableEq, Repr

/-- The built-in default system text. -/
def defaultSystem : PyStr := pys "You are a helpful assistant."

/-- The English dummy thought preamble (DUMMY_THOUGHT en). -/
def dummyEn : PyStr := pys "\nThought: I now know the final answer.\nFinal answer: "

/-- The Chinese dummy thought preamble (DUMMY_THOUGHT zh). -/
def dummyZh : PyStr := pys "\nThought: 我会作答了。\nFinal answer: "

/-- Chinese-script detection: re.findall(r"[一-鿿]+", s) is non-empty. -/
def hasZh (s : PyStr) : Bool :=
  s.any (fun c => 0x4e00 ≤ c.toNat && c.toNat ≤ 0x9fff)

/-- TOOL_DESC template instantiated with the four fields. -/
def toolDesc (nm nh dm params : PyStr) : PyStr :=
  nm ++ pys ": Call this tool to interact with the " ++ nh ++
  pys " API. What is the " ++ nh ++ pys " API useful for? " ++ dm ++
  pys " Parameters: " ++ params

/-- REACT_INSTRUCTION template instantiated with tools_text and tools_name_text. -/
def reactInstruction (toolsText toolsNames : PyStr) : PyStr :=
  pys "Answer the following questions as best you can. You have access to the following APIs:\n\n" ++
  toolsText ++
  pys "\n\nUse the following format:\n\nQuestion: the input question you must answer\nThought: you should always think about what to do\nAction: the action to take, should be one of [" ++
  toolsNames ++
  pys "]\nAction Input: the input to the action\nObservation: the result of the action\n... (this Thought/Action/Action Input/Observation can be repeated zero or more times)\nThought: I now know the final answer\nFinal Answer: the final answer to the original input question\n\nBegin!"

/-- Tool-definition folding of parse_messages (lines 162-188): if functions is
non-empty the ReAct instruction block is appended to system, then trimmed. -/
def buildSystem (sys0 : PyStr) (funcs : List FuncDef) : PyStr :=
  if funcs = [] then sys0
  else
    let toolsText := List.intercalate (pys "\n\n")
      (funcs.map (fun f => toolDesc (f.name_for_model.getD f.name)
        (f.name_for_human.getD f.name)
        (f.description_for_model.getD f.description) f.parameters_json))
    let toolsNames := List.intercalate (pys ", ")
      (funcs.map (fun f => f.name_for_model.getD f.name))
    pyRstrip (pyLstripNl (sys0 ++ pys "\n\n" ++ reactInstruction toolsText toolsNames))

/-- The message-restructuring loop of parse_messages (lines 190-232).  The
accumulator is kept reversed (head = latest normalized message). -/
def normLoop (hf : Bool) (acc : List NMsg) : List ChatMessage → Except Err (List NMsg)
  | [] => .ok acc.reverse
  | m :: rest =>
    let content := m.content.getD []
    match m.role with
    | .function =>
      match acc with
      | last :: others =>
        if last.role = .assistant then
          let c1 := last.content ++ pys "\nObservation: " ++ content
          let c2 := if rest = [] then c1 ++ pys "\nThought:" else c1
          normLoop hf (⟨.assistant, c2⟩ :: others) rest
        else .error .expectAssistantBeforeFunction
      | [] => .error .expectAssistantBeforeFunction
    | .assistant =>
      match acc with
      | [] => .error .expectUserBeforeAssistant
      | last :: others =>
        let lastZh := hasZh last.content
        let c := match m.function_call with
          | none => if hf then (if lastZh then dummyZh else dummyEn) ++ content else content
          | some fc =>
            let c0 := if content = [] then
                (if lastZh then pys "Thought: 我可以使用 " ++ fc.1 ++ pys " API。"
                 else pys "Thought: I can use " ++ fc.1 ++ pys ".")
              else content
            pys "\n" ++ c0 ++ pys "\nAction: " ++ fc.1 ++ pys "\nAction Input: " ++ fc.2
        if last.role = .user then
          normLoop hf (⟨.assistant, pyRstrip (pyLstripNl c)⟩ :: last :: others) rest
        else
          normLoop hf (⟨last.role, last.content ++ c⟩ :: others) rest
    | .user => normLoop hf (⟨.user, pyRstrip (pyLstripNl content)⟩ :: acc) rest
    | .system => .error .incorrectRole

/-- Query extraction of parse_messages (lines 234-237): a trailing user message
becomes the query; otherwise the sentinel (none) selects text-completion mode. -/
def extractQuery (msgs : List NMsg) : Except Err (Option PyStr × List NMsg) :=
  match msgs.getLast? with
  | none => .error .indexError
  | some last =>
    if last.role = .user then .ok (some last.content, msgs.dropLast) else .ok (none, msgs)

/-- Python substring containment (the "in" operator), as a boolean scan. -/
def containsSub : PyStr → PyStr → Bool
  | s, pat =>
    pat.isPrefixOf s ||
    match s with
    | [] => false
    | _ :: tl => containsSub tl pat

/-- One dummy-thought stripping step of the pairing loop (lines 247-250). -/
def dummyStripOne (bot t0 : PyStr) : PyStr :=
  let t := pyLstripNl t0
  if t.isPrefixOf bot && containsSub bot (pys "\nAction: ") then bot.drop t.length else bot

/-- Strip the dummy-thought preambles (DUMMY_THOUGHT.values(): en then zh). -/
def dummyStrip (bot : PyStr) : PyStr :=
  dummyStripOne (dummyStripOne bot dummyEn) dummyZh

/-- The (user, assistant) pairing loop of parse_messages (lines 239-255),
threading the unconsumed system string.  A pairing mismatch raises ValueError;
an odd tail whose head has role user evaluates messages[i+1] out of range
(IndexError). -/
def pairLoop (sys : PyStr) : List NMsg → Except Err (PyStr × List (PyStr × PyStr))
  | [] => .ok (sys, [])
  | [m] => if m.role = .user then .error .indexError else .error .pairMismatch
  | u :: a :: rest =>
    if u.role = .user then
      if a.role = .assistant then
        let usr := pyRstrip (pyLstripNl u.content)
        let bot0 := pyRstrip (pyLstripNl a.content)
        let isLastPair := decide (sys ≠ []) && decide (rest = [])
        let usr2 := if isLastPair then sys ++ pys "\n\nQuestion: " ++ usr else usr
        let sys2 := if isLastPair then ([] : PyStr) else sys
        let bot := dummyStrip bot0
        match pairLoop sys2 rest with
        | .ok r => .ok (r.1, (usr2, bot) :: r.2)
        | .error e => .error e
      else .error .pairMismatch
    else .error .pairMismatch

/-- The body of parse_messages after system extraction and tool folding
(lines 190-261): restructuring loop, query extraction, pairing, and the final
application of any unconsumed system string to the query. -/
def parseMessagesCore (msgs : List ChatMessage) (sys : PyStr) (hf : Bool) :
    Except Err (Option PyStr × List (PyStr × PyStr)) :=
  match normLoop hf [] msgs with
  | .error e => .error e
  | .ok nm =>
    match extractQuery nm with
    | .error e => .error e
    | .ok qr =>
      match pairLoop sys qr.2 with
      | .error e => .error e
      | .ok sh =>
        if sh.1 ≠ [] then
          match qr.1 with
          | none => .error .assertionError
          | some qs => .ok (some (sh.1 ++ pys "\n\nQuestion: " ++ qs), sh.2)
        else .ok (qr.1, sh.2)

/-- System extraction of parse_messages (lines 156-160): a leading system
message is popped; the default system text counts as empty; a None content
fails the assert. -/
def extractSystem : List ChatMessage → Except Err (PyStr × List ChatMessage)
  | [] => .error .indexError
  | m :: rest =>
    if m.role = .system then
      match m.content with
      | none => .error .assertionError
      | some c => .ok (if c = defaultSystem then [] else c, rest)
    else .ok ([], m :: rest)

/-- parse_messages (lines 145-261): validation, system extraction, tool folding
and the core pipeline.  Returns (query, history); query = none is the
text-completion sentinel. -/
def parseMessages (msgs : List ChatMessage) (funcs : List FuncDef) :
    Except Err (Option PyStr × List (PyStr × PyStr)) :=
  if msgs.all (fun m => m.role ≠ .user) then .error .noUserMessage
  else
    match extractSystem msgs with
    | .error e => .error e
    | .ok sr => parseMessagesCore sr.2 (buildSystem sr.1 funcs) (funcs ≠ [])

/-- The delta produced by a successful function-call extraction. -/
structure FnDelta where
  content : PyStr
  name : PyStr
  args : PyStr
deriving DecidableEq, Repr

/-- The control marker "\nAction:". -/
def actionM : PyStr := pys "\nAction:"

/-- The control marker "\nAction Input:". -/
def actionInputM : PyStr := pys "\nAction Input:"

/-- The control marker "\nObservation:". -/
def obsM : PyStr := pys "\nObservation:"

/-- Python slice with Int endpoints as they occur in _parse_function_response
(all non-negative on the taken branch). -/
def pySliceI (s : PyStr) (a b : Int) : PyStr := pySlice s a.toNat b.toNat

/-- _parse_function_response (lines 263-281). -/
def parseFunctionResponse (response : PyStr) : Option FnDelta :=
  let i := pyRfind response actionM
  let j := pyRfind response actionInputM
  let k := pyRfind response obsM
  if 0 ≤ i ∧ i < j then
    let response2 := if k < j then pyRstrip response ++ obsM else response
    let k2 := pyRfind response2 obsM
    let fname := pystrip (pySliceI response2 (i + (actionM.length : Int)) j)
    let fargs := pystrip (pySliceI response2 (j + (actionInputM.length : Int)) k2)
    if fname ≠ [] then some ⟨pySliceI response2 0 i, fname, fargs⟩ else none
  else none

/-- The tokenizer collaborator: encode plus the two special token ids. -/
structure Tok where
  encode : PyStr → List Nat
  imStartId : Nat
  imEndId : Nat

/-- _tokenize_str of make_context. -/
def tokenizeStr (t : Tok) (role content : PyStr) : PyStr × List Nat :=
  (role ++ pys "\n" ++ content,
   t.encode role ++ t.encode (pys "\n") ++ t.encode content)

/-- The system turn tokens of make_context (line 73). -/
def systemTokens (t : Tok) (sys : PyStr) : List Nat :=
  [t.imStartId] ++ (tokenizeStr t (pys "system") sys).2 ++ [t.imEndId]

/-- The token block of one history turn (line 86). -/
def turnTokens (t : Tok) (p : PyStr × PyStr) : List Nat :=
  t.encode (pys "\n") ++ ([t.imStartId] ++ (tokenizeStr t (pys "user") p.1).2 ++ [t.imEndId]) ++
  t.encode (pys "\n") ++ ([t.imStartId] ++ (tokenizeStr t (pys "assistant") p.2).2 ++ [t.imEndId])

/-- The text block of one history turn (lines 87-89). -/
def turnText (p : PyStr × PyStr) : PyStr :=
  pys "\n<|im_start|>" ++ (pys "user" ++ pys "\n" ++ p.1) ++ pys "<|im_end|>" ++
  pys "\n<|im_start|>" ++ (pys "assistant" ++ pys "\n" ++ p.2) ++ pys "<|im_end|>"

/-- The truncation loop of make_context (lines 78-98): walk the reversed
history, prepending each turn while the strict window budget holds, else break. -/
def mcLoop (t : Tok) (sysLen maxW : Nat) : List (PyStr × PyStr) → PyStr × List Nat → PyStr × List Nat
  | [], acc => acc
  | p :: rest, acc =>
    let next := turnTokens t p
    if sysLen + next.length + acc.2.length < maxW then
      mcLoop t sysLen maxW rest (turnText p ++ acc.1, next ++ acc.2)
    else acc

/-- The kept part of the history window of make_context. -/
def keptContext (t : Tok) (sys : PyStr) (maxW : Nat) (hist : List (PyStr × PyStr)) :
    PyStr × List Nat :=
  mcLoop t (systemTokens t sys).length maxW hist.reverse ([], [])

/-- The query segment appended after truncation (lines 102-111). -/
def querySegment (t : Tok) (q : PyStr) : List Nat :=
  t.encode (pys "\n") ++ [t.imStartId] ++ (tokenizeStr t (pys "user") q).2 ++ [t.imEndId] ++
  t.encode (pys "\n") ++ [t.imStartId] ++ t.encode (pys "assistant") ++ t.encode (pys "\n")

/-- make_context (lines 54-113): returns (raw_text, context_tokens). -/
def makeContext (t : Tok) (q : PyStr) (hist : List (PyStr × PyStr)) (sys : PyStr) (maxW : Nat) :
    PyStr × List Nat :=
  let kept := keptContext t sys maxW hist
  (pys "<|im_start|>" ++ (tokenizeStr t (pys "system") sys).1 ++ pys "<|im_end|>" ++ kept.1 ++
     pys "\n<|im_start|>user\n" ++ q ++ pys "<|im_end|>\n<|im_start|>assistant\n",
   systemTokens t sys ++ kept.2 ++ querySegment t q)

/-- text_complete_last_message (lines 132-143): continuation rendering. -/
def textCompleteLastMessage (t : Tok) (hist : List (PyStr × PyStr)) : List Nat :=
  let prompt := hist.foldl
    (fun acc p =>
      acc ++ pys "\n<|im_start|>user\n" ++ pyRstrip (pyLstripNl p.1) ++ pys "<|im_end|>" ++
      pys "\n<|im_start|>assistant\n" ++ pyRstrip (pyLstripNl p.2) ++ pys "<|im_end|>")
    (pys "<|im_start|>system\nYou are a helpful assistant.<|im_end|>")
  t.encode (pyDropLastN (pys "<|im_end|>").length prompt)

/-- render_chat (lines 120-130): the sentinel query selects continuation
rendering, otherwise make_context with the default system text. -/
def renderChat (t : Tok) (msgs : List ChatMessage) (funcs : List FuncDef) :
    Except Err (List Nat) :=
  match parseMessages msgs funcs with
  | .error e => .error e
  | .ok (none, hist) => .ok (textCompleteLastMessage t hist)
  | .ok (some q, hist) => .ok (makeContext t q hist defaultSystem 6144).2

/-- The finish reasons of the streaming API. -/
inductive FR where
  | stop | length | function_call
deriving DecidableEq, Repr

/-- Usage counters carried by a delta event (UsageInfo). -/
structure Usage where
  promptTokens : Nat
  completionTokens : Nat
  totalTokens : Nat
deriving DecidableEq, Repr

/-- One StreamResponseObject: the single choice's delta fields, finish reason
and the optional usage counters. -/
structure Event where
  index : Nat
  role : Option Role
  content : Option PyStr
  functionCall : Option (PyStr × PyStr)
  finishReason : Option FR
  usage : Option Usage
deriving DecidableEq, Repr

/-- One generation step as seen from the streaming loop: the processed output
string (decoded, stop-word-stripped), the output token length, and the finish
reason computed by _process_output_ids_tensor. -/
structure GenStep where
  raw : PyStr
  tokenLength : Nat
  finishReason : Option FR
deriving DecidableEq, Repr

/-- The per-request mutable state of render_response_stream (lines 311-318). -/
structure StreamState where
  index : Nat
  outputString : PyStr
  outputLength : Nat
  respondedString : PyStr
  respondedLength : Nat
  outputTokenLength : Nat
  finishReason : Option FR
  generatingFunctionCall : Bool
deriving DecidableEq, Repr

/-- The initial stream state. -/
def initStream : StreamState :=
  ⟨0, [], 0, [], 0, 0, none, false⟩

/-- One iteration of the async-for body of render_response_stream
(lines 320-361): the optional role announcement, the state refresh from the
processed output, the "\nAction:" latch, and the lookahead-bounded content
delta. -/
def streamStepFn (input : Nat) (s : StreamState) (g : GenStep) : StreamState × List Event :=
  let roleEvs : List Event :=
    if s.outputTokenLength = 0 then
      [{ index := s.index, role := some .assistant, content := none,
         functionCall := none, finishReason := none, usage := none }]
    else []
  let os := pystrip g.raw
  let ol := g.raw.length
  let s1 : StreamState :=
    { s with outputString := os, outputLength := ol,
             finishReason := g.finishReason, outputTokenLength := g.tokenLength }
  if actionM.isSuffixOf os then
    ({ s1 with generatingFunctionCall := true }, roleEvs)
  else if s1.generatingFunctionCall then (s1, roleEvs)
  else if ol > s1.respondedLength + actionM.length then
    let ds := pySlice os s1.respondedLength (ol - (pys "Action:").length)
    let rs := os.take (ol - (pys "Action:").length)
    ({ s1 with respondedString := rs, respondedLength := rs.length },
     roleEvs ++
       [{ index := s1.index, role := none, content := some ds, functionCall := none,
          finishReason := none,
          usage := some ⟨input, g.tokenLength, input + g.tokenLength⟩ }])
  else (s1, roleEvs)

/-- The async-for loop of render_response_stream over a list of steps. -/
def streamLoop (input : Nat) (s : StreamState) : List GenStep → StreamState × List Event
  | [] => (s, [])
  | g :: rest =>
    let p := streamStepFn input s g
    let q := streamLoop input p.1 rest
    (q.1, p.2 ++ q.2)

/-- The terminal section of render_response_stream (lines 363-418): function
call extraction while buffering, finish-reason defaulting, the final flush of
any unresponded suffix, and the terminal delta. -/
def streamFinish (input : Nat) (s : StreamState) : List Event :=
  let fcPair : StreamState × List Event :=
    if s.generatingFunctionCall then
      match parseFunctionResponse (s.outputString.drop s.respondedLength) with
      | none => (s, [])
      | some fm =>
        ({ s with finishReason := some .function_call,
                  respondedString := s.outputString, respondedLength := s.outputLength },
         [{ index := s.index, role := none, content := some fm.content,
            functionCall := some (fm.name, fm.args), finishReason := some .function_call,
            usage := some ⟨input, s.outputTokenLength, input + s.outputTokenLength⟩ }])
    else (s, [])
  let s1 := fcPair.1
  let fr := s1.finishReason.getD .stop
  let flushPair : Nat × List Event :=
    if s1.respondedLength < s1.outputLength then
      (s1.index + 1,
       [{ index := s1.index + 1, role := none,
          content := some (s1.outputString.drop s1.respondedLength), functionCall := none,
          finishReason := none,
          usage := some ⟨input, s1.outputTokenLength, input + s1.outputTokenLength⟩ }])
    else (s1.index, [])
  fcPair.2 ++ flushPair.2 ++
    [{ index := flushPair.1 + 1, role := none, content := some [], functionCall := none,
       finishReason := some fr,
       usage := some ⟨input, s1.outputTokenLength, input + s1.outputTokenLength⟩ }]

/-- render_response_stream (lines 305-418) over a finite stream of steps:
the ordered list of emitted StreamResponseObjects. -/
def renderResponseStream (input : Nat) (steps : List GenStep) : List Event :=
  let p := streamLoop input initStream steps
  p.2 ++ streamFinish input p.1

/-- A user message with plain content. -/
def userMsg (s : String) : ChatMessage := ⟨.user, some (pys s), none⟩

/-- An assistant message with plain content and no function call. -/
def assistantMsg (s : String) : ChatMessage := ⟨.assistant, some (pys s), none⟩

/-- An assistant message carrying a function call. -/
def assistantCallMsg (c n a : String) : ChatMessage := ⟨.assistant, some (pys c), some (pys n, pys a)⟩

/-- A function-result message. -/
def functionMsg (s : String) : ChatMessage := ⟨.function, some (pys s), none⟩

/-- A concrete tokenizer instance (one token per character) used for closed
evaluations; the special ids are the Qwen im_start/im_end ids. -/
def tok0 : Tok := ⟨fun s => s.map Char.toNat, 151644, 151645⟩

/-- Prefix the system text onto the user side of the last history turn. -/
def prefixLastUser (sys : PyStr) : List (PyStr × PyStr) → List (PyStr × PyStr)
  | [] => []
  | [p] => [(sys ++ pys "\n\nQuestion: " ++ p.1, p.2)]
  | p :: q :: rest => p :: prefixLastUser sys (q :: rest)

/-- Where a non-empty unconsumed system string lands: on the last history
turn's user text, or on the query when history is empty. -/
def applySystemPrefix (sys : PyStr) (r : Option PyStr × List (PyStr × PyStr)) :
    Option PyStr × List (PyStr × PyStr) :=
  if r.2 = [] then (r.1.map (fun q => sys ++ pys "\n\nQuestion: " ++ q), [])
  else (r.1, prefixLastUser sys r.2)

/-- Does an odd remainder reach the dangling-user IndexError: every complete
(user, assistant) pair checks out and the final dangling message has role
user.  Otherwise the first failing check raises the InvalidRole ValueError. -/
def oddDanglingUser : List NMsg → Bool
  | [] => false
  | [m] => m.role == .user
  | u :: a :: rest => u.role == .user && a.role == .assistant && oddDanglingUser rest

theorem containsSub_iff (s pat : PyStr) : containsSub s pat = true ↔ pat <:+: s := by
  induction s with
  | nil =>
    simp [containsSub, List.isPrefixOf_iff_prefix]
  | cons c tl ih =>
    rw [containsSub]
    simp [List.isPrefixOf_iff_prefix, ih, List.infix_cons_iff]

theorem containsSub_false_of_infix {s t pat : PyStr} (h : s <:+: t)
    (ht : containsSub t pat = false) : containsSub s pat = false := by
  by_contra hc
  have h1 : containsSub s pat = true := by
    cases hcs : containsSub s pat with
    | true => rfl
    | false => exact absurd hcs hc
  have h2 : pat <:+: t := ((containsSub_iff s pat).mp h1).trans h
  rw [(containsSub_iff t pat).mpr h2] at ht
  cases ht

theorem pySlice_infix (s : PyStr) (a b : Nat) : pySlice s a b <:+: s := by
  unfold pySlice
  exact ((List.drop_suffix a (s.take b)).isInfix).trans (List.take_prefix b s).isInfix

theorem pyDrop_infix (s : PyStr) (a : Nat) : s.drop a <:+: s :=
  (List.drop_suffix a s).isInfix

/-- Claim C10: for the empty message list, normalization fails with the
MalformedConversation error ("At least one message must be from user."): the
no-user check is vacuously true over the empty list and raises before any
element is indexed. -/
theorem C10_empty_messages_malformed (funcs : List FuncDef) :
    parseMessages [] funcs = .error .noUserMessage := rfl

/-- Claim C6, counterexample: on messages = [assistant("partial answer")] with
no functions, render_chat does not reach the continuation rendering path; the
no-user-message validation raises first. -/
theorem C6_cex :
    renderChat tok0 [assistantMsg "partial answer"] [] = .error .noUserMessage := rfl

/-- Claim C6, amended: whenever normalization succeeds with the
text-completion sentinel query (conversation ending in an assistant turn),
render_chat uses the continuation rendering path (text_complete_last_message),
never the default query path. -/
theorem C6_sentinel_continuation (t : Tok) (msgs : List ChatMessage)
    (funcs : List FuncDef) (hist : List (PyStr × PyStr))
    (h : parseMessages msgs funcs = .ok (none, hist)) :
    renderChat t msgs funcs = .ok (textCompleteLastMessage t hist) := by
  unfold renderChat
  rw [h]

/-- Claim C6, witness: a conversation with a user turn followed by an
unfinished assistant turn takes the continuation path. -/
theorem C6_wit :
    parseMessages [userMsg "hi", assistantMsg "a partial answer"] [] =
      .ok (none, [(pys "hi", pys "a partial answer")]) ∧
    renderChat tok0 [userMsg "hi", assistantMsg "a partial answer"] [] =
      .ok (textCompleteLastMessage tok0 [(pys "hi", pys "a partial answer")]) :=
  ⟨by decide, C6_sentinel_continuation tok0 _ _ _ (by decide)⟩

/-- Claim C7, counterexample: messages = [user "a", user "b"] leave an odd
remaining list after query extraction, and normalization fails with the
IndexError path (messages[i+1] out of range), not with the InvalidRole
ValueError. -/
theorem C7_cex : parseMessages [userMsg "a", userMsg "b"] [] = .error .indexError := rfl

/-- Claim C2, counterexample: one step with raw output "abcdefghijkl" emits the
content delta "abcde" (the last len("Action:") = 7 characters are withheld),
not outputString[0 : len(outputString) - len("\nAction:")] = "abcd" as the
claim states. -/
theorem C2_cex :
    renderResponseStream 0 [⟨pys "abcdefghijkl", 5, none⟩] =
      [⟨0, some .assistant, none, none, none, none⟩,
       ⟨0, none, some (pys "abcde"), none, none, some ⟨0, 5, 5⟩⟩,
       ⟨1, none, some (pys "fghijkl"), none, none, some ⟨0, 5, 5⟩⟩,
       ⟨2, none, some (pys ""), none, some .stop, some ⟨0, 5, 5⟩⟩] ∧
    pys "abcde" ≠
      pySlice (pystrip (pys "abcdefghijkl")) 0
        ((pystrip (pys "abcdefghijkl")).length - (pys "\nAction:").length) := by
  exact ⟨by decide, by decide⟩

/-- Claim C9, counterexample: the initial role-announcement delta of a stream
carries no usage counters at all. -/
theorem C9_cex :
    (renderResponseStream 5 [⟨pys "hi", 1, none⟩]).head? =
      some ⟨0, some .assistant, none, none, none, none⟩ ∧
    (⟨0, some .assistant, none, none, none, none⟩ : Event).usage = none := by
  exact ⟨by decide, rfl⟩

/-- Claim C1, counterexample: on the single step "hello\nAction:" the latch
becomes true, the terminal parse fails, and the final flush emits a content
delta containing the literal "\nAction:" marker. -/
theorem C1_cex :
    (streamLoop 0 initStream [⟨pys "hello\nAction:", 2, none⟩]).1.generatingFunctionCall = true ∧
    ∃ e ∈ renderResponseStream 0 [⟨pys "hello\nAction:", 2, none⟩],
      containsSub (e.content.getD []) actionM = true := by
  constructor
  · decide
  · exact ⟨⟨1, none, some (pys "hello\nAction:"), none, none, some ⟨0, 2, 2⟩⟩, by decide, by decide⟩

/-- Claim C4, counterexample: with a one-token-per-character tokenizer, system
text "S" and window budget 1, the full history encoding exceeds the budget,
no turn is kept, and the kept turns' token count plus system tokens is not
below the budget. -/
theorem C4_cex :
    keptContext tok0 (pys "S") 1 [(pys "a", pys "b")] = ([], []) ∧
    ¬ ((systemTokens tok0 (pys "S")).length +
        (keptContext tok0 (pys "S") 1 [(pys "a", pys "b")]).2.length < 1) ∧
    (([(pys "a", pys "b")].map (turnTokens tok0)).flatten).length > 1 := by
  refine ⟨by decide, by decide, by decide⟩

theorem bool_eq_false_of_not_true {b : Bool} (h : ¬ b = true) : b = false := by
  cases b
  · rfl
  · exact absurd rfl h

theorem streamStepFn_content_infix (input : Nat) (s : StreamState) (g : GenStep) :
    ∀ e ∈ (streamStepFn input s g).2, ∀ cs, e.content = some cs →
      actionM.isSuffixOf (pystrip g.raw) = false ∧ cs <:+: pystrip g.raw := by
  intro e he cs hcs
  by_cases h0 : s.outputTokenLength = 0 <;>
    by_cases h1 : actionM.isSuffixOf (pystrip g.raw) = true <;>
    by_cases h2 : s.generatingFunctionCall = true <;>
    by_cases h3 : g.raw.length > s.respondedLength + actionM.length <;>
    simp [streamStepFn, h0, h1, h2, h3] at he <;>
    (try rcases he with he | he) <;> (try subst he) <;> (try simp at hcs) <;>
    (try cases hcs) <;>
    exact ⟨bool_eq_false_of_not_true h1, pySlice_infix _ _ _⟩

/-- Claim C1, amended: provided every update's stripped output string contains
the "\nAction:" marker only (if at all) as a trailing suffix, no content delta
emitted by the per-update streaming loop contains "\nAction:".  (The terminal
function-call delta and the final flush may still contain it, as the
counterexample shows.) -/
theorem C1_no_marker_leak_in_loop (input : Nat) (steps : List GenStep)
    (hsteps : ∀ g ∈ steps, containsSub (pystrip g.raw) actionM = true →
      actionM.isSuffixOf (pystrip g.raw) = true) :
    ∀ e ∈ (streamLoop input initStream steps).2,
      containsSub (e.content.getD []) actionM = false := by
  have main : ∀ (l : List GenStep) (s0 : StreamState),
      (∀ g ∈ l, containsSub (pystrip g.raw) actionM = true →
        actionM.isSuffixOf (pystrip g.raw) = true) →
      ∀ e ∈ (streamLoop input s0 l).2, containsSub (e.content.getD []) actionM = false := by
    intro l
    induction l with
    | nil => intro s0 _ e he; simp [streamLoop] at he
    | cons g rest ih =>
      intro s0 hl e he
      simp only [streamLoop, List.mem_append] at he
      cases he with
      | inl hstep =>
        cases hcs : e.content with
        | none => simp only [hcs, Option.getD_none]; rfl
        | some cs =>
          obtain ⟨hsuf, hinf⟩ := streamStepFn_content_infix input s0 g e hstep cs hcs
          have hco : containsSub (pystrip g.raw) actionM = false := by
            cases hcc : containsSub (pystrip g.raw) actionM with
            | false => rfl
            | true =>
              rw [hl g (List.Mem.head rest) hcc] at hsuf
              cases hsuf
          simp only [hcs, Option.getD_some]
          exact containsSub_false_of_infix hinf hco
      | inr hrest => exact ih _ (fun g' hg' => hl g' (List.Mem.tail _ hg')) e hrest
  exact main steps initStream hsteps

/-- Claim C1, witness: a run in which the marker arrives incrementally at the
boundary; the latch fires and no loop delta contains the marker. -/
theorem C1_wit :
    (∀ g ∈ [(⟨pys "Hello there friend", 2, none⟩ : GenStep),
            ⟨pys "Hello there friend\nAction:", 3, none⟩],
      containsSub (pystrip g.raw) actionM = true →
        actionM.isSuffixOf (pystrip g.raw) = true) ∧
    ∀ e ∈ (streamLoop 0 initStream
        [(⟨pys "Hello there friend", 2, none⟩ : GenStep),
         ⟨pys "Hello there friend\nAction:", 3, none⟩]).2,
      containsSub (e.content.getD []) actionM = false :=
  ⟨by decide, C1_no_marker_leak_in_loop 0 _ (by decide)⟩

/-- Claim C2, amended: in a streaming (non-buffering) update whose raw output
length exceeds respondedLength + len("\nAction:"), the emitted content delta is
outputString[respondedLength : rawLen - len("Action:")] (so exactly the last
7 characters, measured against the raw length, are withheld) and
respondedLength advances to the length of outputString[: rawLen - 7]. -/
theorem C2_streaming_delta (input : Nat) (pre : List GenStep) (g : GenStep)
    (s : StreamState) (hs : s = (streamLoop input initStream pre).1)
    (hsuf : actionM.isSuffixOf (pystrip g.raw) = false)
    (hgen : s.generatingFunctionCall = false)
    (hlen : g.raw.length > s.respondedLength + (pys "\nAction:").length) :
    (streamStepFn input s g).2 =
      (if s.outputTokenLength = 0 then
        [⟨s.index, some .assistant, none, none, none, none⟩] else []) ++
      [⟨s.index, none,
        some (pySlice (pystrip g.raw) s.respondedLength
          (g.raw.length - (pys "Action:").length)),
        none, none, some ⟨input, g.tokenLength, input + g.tokenLength⟩⟩] ∧
    (streamStepFn input s g).1.respondedLength =
      ((pystrip g.raw).take (g.raw.length - (pys "Action:").length)).length := by
  have hsuf' : ¬ (actionM.isSuffixOf (pystrip g.raw) = true) := by
    rw [hsuf]; exact fun h => by cases h
  have hgen' : ¬ (s.generatingFunctionCall = true) := by
    rw [hgen]; exact fun h => by cases h
  have hlen' : g.raw.length > s.respondedLength + actionM.length := hlen
  constructor
  · simp [streamStepFn, hsuf', hgen', hlen']
  · simp [streamStepFn, hsuf', hgen', hlen']

/-- Claim C2, witness: a concrete streaming update where the lookahead
withholds the last seven characters of the raw output. -/
theorem C2_wit :
    actionM.isSuffixOf (pystrip (pys "abcdefghijkl")) = false ∧
    (streamLoop 0 initStream []).1.generatingFunctionCall = false ∧
    (pys "abcdefghijkl").length >
      (streamLoop 0 initStream []).1.respondedLength + (pys "\nAction:").length ∧
    (streamStepFn 0 (streamLoop 0 initStream []).1 ⟨pys "abcdefghijkl", 5, none⟩).2 =
      [⟨0, some .assistant, none, none, none, none⟩,
       ⟨0, none, some (pySlice (pystrip (pys "abcdefghijkl")) 0 (12 - 7)),
        none, none, some ⟨0, 5, 5⟩⟩] := by
  refine ⟨by decide, by decide, by decide, ?_⟩
  have h := C2_streaming_delta 0 [] ⟨pys "abcdefghijkl", 5, none⟩
    (streamLoop 0 initStream []).1 rfl (by decide) (by decide) (by decide)
  exact h.1.trans (by decide)

theorem streamStepFn_otl (input : Nat) (s : StreamState) (g : GenStep) :
    (streamStepFn input s g).1.outputTokenLength = g.tokenLength := by
  by_cases h1 : actionM.isSuffixOf (pystrip g.raw) = true <;>
    by_cases h2 : s.generatingFunctionCall = true <;>
    by_cases h3 : g.raw.length > s.respondedLength + actionM.length <;>
    simp [streamStepFn, h1, h2, h3]

theorem streamLoop_otl (input : Nat) :
    ∀ (l : List GenStep) (s : StreamState),
      (streamLoop input s l).1.outputTokenLength ∈
        s.outputTokenLength :: l.map GenStep.tokenLength := by
  intro l
  induction l with
  | nil => intro s; simp [streamLoop]
  | cons g rest ih =>
    intro s
    simp only [streamLoop, List.map_cons]
    have h := ih (streamStepFn input s g).1
    rw [streamStepFn_otl] at h
    exact List.mem_cons_of_mem _ h

theorem streamStepFn_usage (input : Nat) (s : StreamState) (g : GenStep) :
    ∀ e ∈ (streamStepFn input s g).2,
      (e.usage = none ∧ e.role = some .assistant) ∨
      e.usage = some ⟨input, g.tokenLength, input + g.tokenLength⟩ := by
  intro e he
  by_cases h0 : s.outputTokenLength = 0 <;>
    by_cases h1 : actionM.isSuffixOf (pystrip g.raw) = true <;>
    by_cases h2 : s.generatingFunctionCall = true <;>
    by_cases h3 : g.raw.length > s.respondedLength + actionM.length <;>
    simp [streamStepFn, h0, h1, h2, h3] at he <;>
    (try rcases he with he | he) <;> (try subst he) <;> simp

theorem streamLoop_usage (input : Nat) :
    ∀ (l : List GenStep) (s : StreamState), ∀ e ∈ (streamLoop input s l).2,
      (e.usage = none ∧ e.role = some .assistant) ∨
      ∃ u : Usage, e.usage = some u ∧ u.promptTokens = input ∧
        u.totalTokens = input + u.completionTokens ∧
        u.completionTokens ∈ l.map GenStep.tokenLength := by
  intro l
  induction l with
  | nil => intro s e he; simp [streamLoop] at he
  | cons g rest ih =>
    intro s e he
    simp only [streamLoop, List.mem_append] at he
    cases he with
    | inl hstep =>
      cases streamStepFn_usage input s g e hstep with
      | inl h => exact Or.inl h
      | inr h =>
        exact Or.inr ⟨_, h, rfl, rfl, by simp⟩
    | inr hrest =>
      cases ih (streamStepFn input s g).1 e hrest with
      | inl h => exact Or.inl h
      | inr h =>
        obtain ⟨u, hu, hp, ht, hc⟩ := h
        exact Or.inr ⟨u, hu, hp, ht, List.mem_cons_of_mem _ hc⟩

theorem streamFinish_usage (input : Nat) (s : StreamState) :
    ∀ e ∈ streamFinish input s,
      e.usage = some ⟨input, s.outputTokenLength, input + s.outputTokenLength⟩ := by
  intro e he
  by_cases hg : s.generatingFunctionCall = true
  · simp only [streamFinish, hg, if_true] at he
    cases hp : parseFunctionResponse (s.outputString.drop s.respondedLength) with
    | none =>
      rw [hp] at he
      simp only [List.nil_append] at he
      by_cases hf : s.respondedLength < s.outputLength <;>
        simp [hf] at he <;> (try rcases he with he | he | he) <;>
        (try rcases he with he | he) <;> (try subst he) <;> rfl
    | some fm =>
      rw [hp] at he
      by_cases hf : s.outputLength < s.outputLength <;>
        simp [hf] at he <;> (try rcases he with he | he | he) <;>
        (try rcases he with he | he) <;> (try subst he) <;> rfl
  · simp only [streamFinish, hg, if_false] at he
    by_cases hf : s.respondedLength < s.outputLength <;>
      simp [hg, hf] at he <;> (try rcases he with he | he | he) <;>
      (try rcases he with he | he) <;> (try subst he) <;> rfl

theorem streamLoop_events_decomp (input : Nat) :
    ∀ (l : List GenStep) (s : StreamState),
      (streamLoop input s l).2 =
        ((List.range l.length).map (fun i =>
          (streamStepFn input (streamLoop input s (l.take i)).1
            (l.getD i ⟨[], 0, none⟩)).2)).flatten := by
  intro l
  induction l with
  | nil => intro s; simp [streamLoop]
  | cons g rest ih =>
    intro s
    simp only [streamLoop, List.length_cons]
    rw [List.range_succ_eq_map]
    simp only [List.map_cons, List.map_map, List.flatten_cons]
    congr 1
    rw [ih (streamStepFn input s g).1]
    refine congrArg List.flatten (List.map_congr_left ?_)
    intro i _
    simp only [Function.comp_apply, List.take_succ_cons, List.getD_cons_succ, streamLoop]

theorem streamLoop_otl_last (input : Nat) :
    ∀ (l : List GenStep) (s : StreamState),
      (streamLoop input s l).1.outputTokenLength =
        (l.getLast?.map GenStep.tokenLength).getD s.outputTokenLength := by
  intro l
  induction l with
  | nil => intro s; simp [streamLoop]
  | cons g rest ih =>
    intro s
    simp only [streamLoop]
    rw [ih (streamStepFn input s g).1, streamStepFn_otl]
    cases rest with
    | nil => simp
    | cons h t =>
      rw [List.getLast?_cons_cons]
      cases hgl : (h :: t).getLast? with
      | none => simp at hgl
      | some x => simp [hgl]

/-- Claim C9, amended: the emitted stream decomposes into one event block per
generation step plus the terminal block; within step i's block every event
except the role announcement carries usage counters with promptTokens equal to
the prompt token length, completionTokens equal to the running completion
token count current at that emission (step i's token count), and totalTokens
their sum; the terminal block's events carry the final running count (the last
step's token count); the role-announcement delta carries no usage at all. -/
theorem C9_usage (input : Nat) (steps : List GenStep) :
    renderResponseStream input steps =
      ((List.range steps.length).map (fun i =>
        (streamStepFn input (streamLoop input initStream (steps.take i)).1
          (steps.getD i ⟨[], 0, none⟩)).2)).flatten ++
      streamFinish input (streamLoop input initStream steps).1 ∧
    (∀ i, i < steps.length →
      ∀ e ∈ (streamStepFn input (streamLoop input initStream (steps.take i)).1
          (steps.getD i ⟨[], 0, none⟩)).2,
        (e.usage = none ∧ e.role = some .assistant) ∨
        e.usage = some ⟨input, (steps.getD i ⟨[], 0, none⟩).tokenLength,
          input + (steps.getD i ⟨[], 0, none⟩).tokenLength⟩) ∧
    (∀ e ∈ streamFinish input (streamLoop input initStream steps).1,
      e.usage = some ⟨input, (streamLoop input initStream steps).1.outputTokenLength,
        input + (streamLoop input initStream steps).1.outputTokenLength⟩) ∧
    (streamLoop input initStream steps).1.outputTokenLength =
      (steps.getLast?.map GenStep.tokenLength).getD 0 := by
  refine ⟨?_, ?_, ?_, ?_⟩
  · simp only [renderResponseStream]
    rw [streamLoop_events_decomp]
  · intro i _ e he
    exact streamStepFn_usage input _ _ e he
  · intro e he
    exact streamFinish_usage input _ e he
  · exact streamLoop_otl_last input steps initStream

/-- Claim C9, witness: in a concrete run the content delta of step 0 carries
usage ⟨4, 5, 9⟩, i.e. exactly the prompt length and the running completion
count of the step being processed. -/
theorem C9_wit :
    (0 < ([(⟨pys "abcdefghijkl", 5, none⟩ : GenStep)] : List GenStep).length) ∧
    ((⟨0, none, some (pys "abcde"), none, none, some ⟨4, 5, 9⟩⟩ : Event) ∈
      (streamStepFn 4 (streamLoop 4 initStream
          (([(⟨pys "abcdefghijkl", 5, none⟩ : GenStep)] : List GenStep).take 0)).1
        (([(⟨pys "abcdefghijkl", 5, none⟩ : GenStep)] : List GenStep).getD 0 ⟨[], 0, none⟩)).2) ∧
    (((⟨0, none, some (pys "abcde"), none, none, some ⟨4, 5, 9⟩⟩ : Event).usage = none ∧
      (⟨0, none, some (pys "abcde"), none, none, some ⟨4, 5, 9⟩⟩ : Event).role = some .assistant) ∨
    (⟨0, none, some (pys "abcde"), none, none, some ⟨4, 5, 9⟩⟩ : Event).usage =
      some ⟨4, (([(⟨pys "abcdefghijkl", 5, none⟩ : GenStep)] : List GenStep).getD 0
          ⟨[], 0, none⟩).tokenLength,
        4 + (([(⟨pys "abcdefghijkl", 5, none⟩ : GenStep)] : List GenStep).getD 0
          ⟨[], 0, none⟩).tokenLength⟩) :=
  ⟨by decide, by decide,
    (C9_usage 4 [⟨pys "abcdefghijkl", 5, none⟩]).2.1 0 (by decide) _ (by decide)⟩

/-- Claim C7, amended: the remaining normalized messages are consumed as
consecutive (user, assistant) pairs; on an even-length remainder every failure
of the pairing loop is the InvalidRole ValueError; an odd-length remainder
always fails — with the IndexError (messages[i+1] out of range) exactly when
every complete pair before the dangling message is (user, assistant) and the
dangling message has role user, and with the InvalidRole ValueError otherwise
(a remainder like [user, user, user] fails at the first mismatched pair with
the ValueError). -/
theorem C7_pairing (sys : PyStr) (l : List NMsg) :
    (l.length % 2 = 0 → ∀ e, pairLoop sys l = .error e → e = .pairMismatch) ∧
    (l.length % 2 = 1 → pairLoop sys l =
      .error (if oddDanglingUser l = true then Err.indexError else Err.pairMismatch)) := by
  have main : ∀ (nn : Nat) (l : List NMsg) (sys : PyStr), l.length ≤ nn →
      (l.length % 2 = 0 → ∀ e, pairLoop sys l = .error e → e = .pairMismatch) ∧
      (l.length % 2 = 1 → pairLoop sys l =
        .error (if oddDanglingUser l = true then Err.indexError else Err.pairMismatch)) := by
    intro nn
    induction nn with
    | zero =>
      intro l sys hlen
      have hl : l = [] := List.length_eq_zero.mp (Nat.le_zero.mp hlen)
      subst hl
      constructor
      · intro _ e h
        simp [pairLoop] at h
      · intro h
        simp at h
    | succ n ih =>
      intro l sys hlen
      match l with
      | [] =>
        constructor
        · intro _ e h
          simp [pairLoop] at h
        · intro h
          simp at h
      | [m] =>
        constructor
        · intro h
          simp at h
        · intro _
          by_cases hr : m.role = .user
          · simp [pairLoop, oddDanglingUser, hr]
          · simp [pairLoop, oddDanglingUser, hr]
      | u :: a :: rest =>
        have hrlen : rest.length ≤ n := by
          simp only [List.length_cons] at hlen
          omega
        constructor
        · intro hpar e h
          by_cases hu : u.role = .user
          · by_cases ha : a.role = .assistant
            · simp only [pairLoop, hu, ha, if_true, if_pos] at h
              cases hrec : pairLoop (if decide (sys ≠ []) && decide (rest = []) then
                  ([] : PyStr) else sys) rest with
              | ok r => rw [hrec] at h; cases h
              | error e2 =>
                rw [hrec] at h
                have he2 : e2 = Err.pairMismatch := by
                  have hp2 : rest.length % 2 = 0 := by
                    simp only [List.length_cons] at hpar
                    omega
                  exact (ih rest _ hrlen).1 hp2 e2 hrec
                cases h
                exact he2
            · simp only [pairLoop, hu, ha, if_true, if_neg, if_pos] at h
              cases h
              rfl
          · simp only [pairLoop, hu, if_neg] at h
            cases h
            rfl
        · intro hpar
          have hro : rest.length % 2 = 1 := by
            simp only [List.length_cons] at hpar
            omega
          by_cases hu : u.role = .user
          · by_cases ha : a.role = .assistant
            · have hrne : rest ≠ [] := by
                intro h
                rw [h] at hro
                simp at hro
              have hlast : (decide (sys ≠ []) && decide (rest = [])) = false := by
                simp [hrne]
              have hrec := (ih rest sys hrlen).2 hro
              simp only [pairLoop, hu, ha, if_true, if_pos, hlast, if_false,
                Bool.false_eq_true, ite_false]
              rw [hrec]
              simp [oddDanglingUser, hu, ha]
            · simp [pairLoop, oddDanglingUser, hu, ha]
          · simp [pairLoop, oddDanglingUser, hu]
  exact main l.length l sys (Nat.le_refl _)

/-- Claim C7, witness: an odd one-element remainder headed by a user message
fails, and because its complete pairs (none) are fine and the dangling message
has role user, the failure is the IndexError. -/
theorem C7_wit :
    (([(⟨.user, pys "a"⟩ : NMsg)] : List NMsg).length % 2 = 1) ∧
    pairLoop [] [(⟨.user, pys "a"⟩ : NMsg)] =
      .error (if oddDanglingUser [(⟨.user, pys "a"⟩ : NMsg)] = true then Err.indexError
        else Err.pairMismatch) :=
  ⟨by decide, (C7_pairing [] [⟨.user, pys "a"⟩]).2 (by decide)⟩

theorem mcLoop_spec (t : Tok) (sl maxW : Nat) :
    ∀ (l : List (PyStr × PyStr)) (acc : PyStr × List Nat),
      (acc.2 ≠ [] → sl + acc.2.length < maxW) →
      ∃ k, k ≤ l.length ∧
        (mcLoop t sl maxW l acc).2 = ((l.take k).reverse.map (turnTokens t)).flatten ++ acc.2 ∧
        ((mcLoop t sl maxW l acc).2 ≠ [] → sl + (mcLoop t sl maxW l acc).2.length < maxW) ∧
        (k < l.length → ¬ (sl + (turnTokens t (l.getD k ([], []))).length +
          (mcLoop t sl maxW l acc).2.length < maxW)) := by
  intro l
  induction l with
  | nil =>
    intro acc hacc
    refine ⟨0, Nat.le_refl _, by simp [mcLoop], hacc, ?_⟩
    intro h
    simp at h
  | cons p rest ih =>
    intro acc hacc
    by_cases hc : sl + (turnTokens t p).length + acc.2.length < maxW
    · have hacc' : ((turnText p ++ acc.1, turnTokens t p ++ acc.2) : PyStr × List Nat).2 ≠ [] →
          sl + ((turnText p ++ acc.1, turnTokens t p ++ acc.2) : PyStr × List Nat).2.length < maxW := by
        intro _
        simp only [List.length_append]
        omega
      obtain ⟨k, hk, hres, hbound, hnext⟩ := ih (turnText p ++ acc.1, turnTokens t p ++ acc.2) hacc'
      have hunf : mcLoop t sl maxW (p :: rest) acc =
          mcLoop t sl maxW rest (turnText p ++ acc.1, turnTokens t p ++ acc.2) := by
        simp [mcLoop, hc]
      refine ⟨k + 1, Nat.succ_le_succ hk, ?_, ?_, ?_⟩
      · rw [hunf, hres]
        simp [List.take_cons, List.reverse_cons, List.map_append, List.flatten_append,
          List.append_assoc]
      · rw [hunf]
        exact hbound
      · intro hlt
        rw [hunf]
        have := hnext (by simpa using Nat.lt_of_succ_lt_succ (by simpa using hlt))
        simpa using this
    · refine ⟨0, Nat.zero_le _, by simp [mcLoop, hc], ?_, ?_⟩
      · have : mcLoop t sl maxW (p :: rest) acc = acc := by simp [mcLoop, hc]
        rw [this]
        exact hacc
      · intro _
        have : mcLoop t sl maxW (p :: rest) acc = acc := by simp [mcLoop, hc]
        rw [this]
        simpa using hc

/-- Claim C4, amended: the window loop keeps exactly the most recent k turns
for some k; a turn is included only under the strict < budget comparison and
the first failure drops all older turns; when at least one turn is kept the
kept turns' token count plus system tokens is < maxWindowTokens (with an
oversized system no turn is kept and the bound fails, as the counterexample
shows); the query segment is appended afterwards regardless of the budget. -/
theorem C4_truncation (t : Tok) (sys : PyStr) (maxW : Nat)
    (hist : List (PyStr × PyStr)) (q : PyStr) :
    ∃ k, k ≤ hist.length ∧
      (keptContext t sys maxW hist).2 =
        ((hist.drop (hist.length - k)).map (turnTokens t)).flatten ∧
      ((keptContext t sys maxW hist).2 ≠ [] →
        (systemTokens t sys).length + (keptContext t sys maxW hist).2.length < maxW) ∧
      (k < hist.length →
        ¬ ((systemTokens t sys).length +
            (turnTokens t (hist.reverse.getD k ([], []))).length +
            (keptContext t sys maxW hist).2.length < maxW)) ∧
      (makeContext t q hist sys maxW).2 =
        systemTokens t sys ++ (keptContext t sys maxW hist).2 ++ querySegment t q := by
  obtain ⟨k, hk, hres, hbound, hnext⟩ :=
    mcLoop_spec t (systemTokens t sys).length maxW hist.reverse ([], [])
      (fun h => absurd rfl h)
  refine ⟨k, by simpa using hk, ?_, hbound, ?_, rfl⟩
  · have : (hist.reverse.take k).reverse = hist.drop (hist.length - k) := by
      rw [List.take_reverse, List.reverse_reverse]
    rw [keptContext, hres, ← this]
    simp
  · intro hlt
    exact hnext (by simpa using hlt)

/-- Claim C4, witness: with a small system and a large budget every turn is
kept and the budget bound holds. -/
theorem C4_wit :
    ∃ k, k ≤ ([(pys "a", pys "b")] : List (PyStr × PyStr)).length ∧
      (keptContext tok0 (pys "S") 100 [(pys "a", pys "b")]).2 =
        (([(pys "a", pys "b")].drop (1 - k)).map (turnTokens tok0)).flatten ∧
      ((keptContext tok0 (pys "S") 100 [(pys "a", pys "b")]).2 ≠ [] →
        (systemTokens tok0 (pys "S")).length +
          (keptContext tok0 (pys "S") 100 [(pys "a", pys "b")]).2.length < 100) ∧
      (k < 1 →
        ¬ ((systemTokens tok0 (pys "S")).length +
            (turnTokens tok0 (([(pys "a", pys "b")] : List (PyStr × PyStr)).reverse.getD k ([], []))).length +
            (keptContext tok0 (pys "S") 100 [(pys "a", pys "b")]).2.length < 100)) ∧
      (makeContext tok0 (pys "q") [(pys "a", pys "b")] (pys "S") 100).2 =
        systemTokens tok0 (pys "S") ++ (keptContext tok0 (pys "S") 100 [(pys "a", pys "b")]).2 ++
          querySegment tok0 (pys "q") :=
  C4_truncation tok0 (pys "S") 100 [(pys "a", pys "b")] (pys "q")


theorem pyRstrip_reverse_eq (w : PyStr) :
    pyRstrip w = (w.reverse.dropWhile pyIsSpace).reverse := rfl

theorem pyRstrip_append_of_nil (u w : PyStr) (h : pyRstrip w = []) :
    pyRstrip (u ++ w) = pyRstrip u := by
  have hw : w.reverse.dropWhile pyIsSpace = [] := by
    have := congrArg List.reverse h
    rwa [pyRstrip_reverse_eq, List.reverse_reverse, List.reverse_nil] at this
  unfold pyRstrip
  rw [List.reverse_append, List.dropWhile_append, hw]
  simp

theorem pyRstrip_append_of_ne (u w : PyStr) (h : pyRstrip w ≠ []) :
    pyRstrip (u ++ w) = u ++ pyRstrip w := by
  have hw : w.reverse.dropWhile pyIsSpace ≠ [] := by
    intro hc
    exact h (by rw [pyRstrip_reverse_eq, hc, List.reverse_nil])
  unfold pyRstrip
  rw [List.reverse_append, List.dropWhile_append]
  have hw' : (w.reverse.dropWhile pyIsSpace).isEmpty = false := by
    cases hh : w.reverse.dropWhile pyIsSpace with
    | nil => exact absurd hh hw
    | cons a l => rfl
  rw [hw']
  simp

theorem dropWhile_take_length_le (p : Char → Bool) :
    ∀ (u : PyStr) (m : Nat), ((u.take m).dropWhile p).length ≤ (u.dropWhile p).length := by
  intro u
  induction u with
  | nil => intro m; simp
  | cons c tl ih =>
    intro m
    cases m with
    | zero => simp
    | succ m =>
      by_cases hp : p c
      · simpa [List.dropWhile_cons, hp] using ih m
      · simp only [List.take_succ_cons, List.dropWhile_cons, hp, if_false, ite_false,
          Bool.false_eq_true, List.length_cons]
        have := List.length_take m tl
        have h2 : (tl.take m).length ≤ tl.length := by
          rw [List.length_take]
          exact Nat.min_le_right m tl.length
        omega

theorem pyRstrip_take (u : PyStr) : ∃ m, pyRstrip u = u.take m := by
  have hsuf : u.reverse.dropWhile pyIsSpace <:+ u.reverse := List.dropWhile_suffix pyIsSpace
  have hpre : pyRstrip u <+: u := by
    rw [pyRstrip_reverse_eq]
    have := List.reverse_prefix.mpr hsuf
    rwa [List.reverse_reverse] at this
  exact ⟨(pyRstrip u).length, List.prefix_iff_eq_take.mp hpre⟩

theorem pystrip_length_le_lstrip (u : PyStr) :
    (pystrip u).length ≤ (pyLstripWs u).length := by
  obtain ⟨m, hm⟩ := pyRstrip_take u
  rw [pystrip, hm]
  exact dropWhile_take_length_le pyIsSpace u m

theorem pystrip_of_all_space (u : PyStr) (h : u.dropWhile pyIsSpace = []) :
    pystrip u = [] := by
  have hall : ∀ x ∈ u, pyIsSpace x := List.dropWhile_eq_nil_iff.mp h
  have hrev : u.reverse.dropWhile pyIsSpace = [] := by
    rw [List.dropWhile_eq_nil_iff]
    intro x hx
    exact hall x (List.mem_reverse.mp hx)
  have hr : pyRstrip u = [] := by rw [pyRstrip_reverse_eq, hrev, List.reverse_nil]
  rw [pystrip, hr]
  rfl

theorem pystrip_length_mono (u v : PyStr) (h : u <+: v) :
    (pystrip u).length ≤ (pystrip v).length := by
  obtain ⟨w, rfl⟩ := h
  by_cases hw : pyRstrip w = []
  · have he : pystrip (u ++ w) = pystrip u := by
      unfold pystrip
      rw [pyRstrip_append_of_nil u w hw]
    rw [he]
  · have he : pystrip (u ++ w) = (u ++ pyRstrip w).dropWhile pyIsSpace := by
      unfold pystrip pyLstripWs
      rw [pyRstrip_append_of_ne u w hw]
    rw [he, List.dropWhile_append]
    by_cases hu : (u.dropWhile pyIsSpace).isEmpty
    · have hu' : u.dropWhile pyIsSpace = [] := by
        cases hh : u.dropWhile pyIsSpace with
        | nil => rfl
        | cons a l => rw [hh] at hu; cases hu
      rw [pystrip_of_all_space u hu']
      exact Nat.zero_le _
    · have hu' : (u.dropWhile pyIsSpace).isEmpty = false := by
        cases hh : (u.dropWhile pyIsSpace).isEmpty with
        | false => rfl
        | true => exact absurd hh hu
      rw [hu']
      simp only [if_false, Bool.false_eq_true, List.length_append]
      have h1 : (pystrip u).length ≤ (u.dropWhile pyIsSpace).length :=
        pystrip_length_le_lstrip u
      omega

theorem streamStepFn_outputString (input : Nat) (s : StreamState) (g : GenStep) :
    (streamStepFn input s g).1.outputString = pystrip g.raw := by
  by_cases h1 : actionM.isSuffixOf (pystrip g.raw) = true <;>
    by_cases h2 : s.generatingFunctionCall = true <;>
    by_cases h3 : g.raw.length > s.respondedLength + actionM.length <;>
    simp [streamStepFn, h1, h2, h3]

theorem streamStepFn_responded (input : Nat) (s : StreamState) (g : GenStep) :
    (streamStepFn input s g).1.respondedLength = s.respondedLength ∨
    (streamStepFn input s g).1.respondedLength =
      ((pystrip g.raw).take (g.raw.length - (pys "Action:").length)).length := by
  by_cases h1 : actionM.isSuffixOf (pystrip g.raw) = true <;>
    by_cases h2 : s.generatingFunctionCall = true <;>
    by_cases h3 : g.raw.length > s.respondedLength + actionM.length <;>
    simp [streamStepFn, h1, h2, h3]

theorem streamStepFn_gen_mono (input : Nat) (s : StreamState) (g : GenStep)
    (h : s.generatingFunctionCall = true) :
    (streamStepFn input s g).1.generatingFunctionCall = true := by
  by_cases h1 : actionM.isSuffixOf (pystrip g.raw) = true <;>
    by_cases h3 : g.raw.length > s.respondedLength + actionM.length <;>
    simp [streamStepFn, h1, h, h3]

theorem streamLoop_gen_mono (input : Nat) :
    ∀ (l : List GenStep) (s : StreamState), s.generatingFunctionCall = true →
      (streamLoop input s l).1.generatingFunctionCall = true := by
  intro l
  induction l with
  | nil => intro s h; exact h
  | cons g rest ih =>
    intro s h
    exact ih (streamStepFn input s g).1 (streamStepFn_gen_mono input s g h)

theorem streamLoop_state_append (input : Nat) :
    ∀ (l1 l2 : List GenStep) (s : StreamState),
      (streamLoop input s (l1 ++ l2)).1 = (streamLoop input (streamLoop input s l1).1 l2).1 := by
  intro l1
  induction l1 with
  | nil => intro l2 s; rfl
  | cons g rest ih =>
    intro l2 s
    simp only [List.cons_append, streamLoop]
    exact ih l2 (streamStepFn input s g).1

theorem streamLoop_resp_inv (input : Nat) :
    ∀ (l : List GenStep) (s : StreamState) (r0 : PyStr),
      s.outputString = pystrip r0 →
      s.respondedLength ≤ s.outputString.length →
      List.Chain (fun a b => a <+: b) r0 (l.map GenStep.raw) →
      ∀ i, (streamLoop input s (l.take i)).1.respondedLength ≤
        (streamLoop input s (l.take i)).1.outputString.length := by
  intro l
  induction l with
  | nil =>
    intro s r0 hos hresp _ i
    simp only [List.take_nil, streamLoop]
    exact hresp
  | cons g rest ih =>
    intro s r0 hos hresp hchain i
    cases i with
    | zero =>
      simp only [List.take_zero, streamLoop]
      exact hresp
    | succ i =>
      simp only [List.take_succ_cons, streamLoop]
      have hpre : r0 <+: g.raw := by
        cases hchain
        assumption
      have hchain' : List.Chain (fun a b => a <+: b) g.raw (rest.map GenStep.raw) := by
        cases hchain
        assumption
      have hos' : (streamStepFn input s g).1.outputString = pystrip g.raw :=
        streamStepFn_outputString input s g
      have hresp' : (streamStepFn input s g).1.respondedLength ≤
          (streamStepFn input s g).1.outputString.length := by
        rw [hos']
        cases streamStepFn_responded input s g with
        | inl h =>
          rw [h]
          calc s.respondedLength ≤ s.outputString.length := hresp
            _ = (pystrip r0).length := by rw [hos]
            _ ≤ (pystrip g.raw).length := pystrip_length_mono r0 g.raw hpre
        | inr h =>
          rw [h, List.length_take]
          exact Nat.min_le_right _ _
      exact ih (streamStepFn input s g).1 g.raw hos' hresp' hchain' i

/-- Claim C8: after every update of one request, respondedLength is at most
the length of the current decoded, stripped output string (assuming the
generation loop supplies a monotonically growing decoded string, as the stream
contract requires), and once generatingFunctionCall becomes true it stays true
for the rest of the request. -/
theorem C8_invariant (input : Nat) (steps : List GenStep)
    (hmono : List.Chain' (fun a b => a.raw <+: b.raw) steps) :
    (∀ i, (streamLoop input initStream (steps.take i)).1.respondedLength ≤
      (streamLoop input initStream (steps.take i)).1.outputString.length) ∧
    (∀ i j, i ≤ j →
      (streamLoop input initStream (steps.take i)).1.generatingFunctionCall = true →
      (streamLoop input initStream (steps.take j)).1.generatingFunctionCall = true) := by
  constructor
  · have hchain : List.Chain (fun a b => a <+: b) [] (steps.map GenStep.raw) := by
      cases hs : steps with
      | nil => simp
      | cons g rest =>
        simp only [List.map_cons]
        refine List.Chain.cons (List.nil_prefix) ?_
        have := hmono
        rw [hs] at this
        have h2 : List.Chain' (fun a b : PyStr => a <+: b) (g.raw :: rest.map GenStep.raw) := by
          have hm : List.Chain' (fun a b : PyStr => a <+: b)
              ((g :: rest).map GenStep.raw) := by
            rw [List.chain'_map]
            exact this
          simpa using hm
        exact h2
    exact streamLoop_resp_inv input steps initStream [] rfl (Nat.le_refl 0) hchain
  · intro i j hij hgen
    have hsplit : steps.take j = steps.take i ++ (steps.take j).drop i := by
      have h1 : (steps.take j).take i = steps.take i := by
        rw [List.take_take]
        congr 1
        omega
      calc steps.take j = (steps.take j).take i ++ (steps.take j).drop i :=
            (List.take_append_drop i (steps.take j)).symm
        _ = steps.take i ++ (steps.take j).drop i := by rw [h1]
    rw [hsplit, streamLoop_state_append]
    exact streamLoop_gen_mono input _ _ hgen

/-- Claim C8, witness: a concrete monotone two-step run upholds both parts of
the invariant. -/
theorem C8_wit :
    List.Chain' (fun a b : GenStep => a.raw <+: b.raw)
      [⟨pys "hel", 1, none⟩, ⟨pys "hello\nAction:", 2, none⟩] ∧
    ((∀ i, (streamLoop 3 initStream
        ([⟨pys "hel", 1, none⟩, ⟨pys "hello\nAction:", 2, none⟩].take i)).1.respondedLength ≤
      (streamLoop 3 initStream
        ([⟨pys "hel", 1, none⟩, ⟨pys "hello\nAction:", 2, none⟩].take i)).1.outputString.length) ∧
    (∀ i j, i ≤ j →
      (streamLoop 3 initStream
        ([⟨pys "hel", 1, none⟩, ⟨pys "hello\nAction:", 2, none⟩].take i)).1.generatingFunctionCall = true →
      (streamLoop 3 initStream
        ([⟨pys "hel", 1, none⟩, ⟨pys "hello\nAction:", 2, none⟩].take j)).1.generatingFunctionCall = true)) := by
  have hch : List.Chain' (fun a b : GenStep => a.raw <+: b.raw)
      [⟨pys "hel", 1, none⟩, ⟨pys "hello\nAction:", 2, none⟩] := by
    refine List.chain'_cons.mpr ⟨?_, ?_⟩
    · exact ⟨pys "lo\nAction:", by decide⟩
    · simp
  exact ⟨hch, C8_invariant 3 [⟨pys "hel", 1, none⟩, ⟨pys "hello\nAction:", 2, none⟩] hch⟩

theorem pairLoop_ne_nil (sys : PyStr) :
    ∀ (l : List NMsg) out, pairLoop sys l = .ok out → l ≠ [] → out.2 ≠ [] := by
  intro l out h hne
  match l with
  | [] => exact absurd rfl hne
  | [m] =>
    by_cases hr : m.role = .user <;> simp [pairLoop, hr] at h
  | u :: a :: rest =>
    by_cases hu : u.role = .user
    · by_cases ha : a.role = .assistant
      · simp only [pairLoop, hu, ha, if_true, if_pos] at h
        cases hrec : pairLoop (if decide (sys ≠ []) && decide (rest = []) then
            ([] : PyStr) else sys) rest with
        | ok r =>
          rw [hrec] at h
          cases h
          simp
        | error e =>
          rw [hrec] at h
          cases h
      · simp [pairLoop, hu, ha] at h
    · simp [pairLoop, hu] at h

theorem pairLoop_rel :
    ∀ (n : Nat) (l : List NMsg) (sys : PyStr), l.length ≤ n → sys ≠ [] →
      ∀ out, pairLoop sys l = .ok out →
        (l = [] ∧ out = (sys, [])) ∨
        (l ≠ [] ∧ out.1 = [] ∧ ∃ h0, pairLoop ([] : PyStr) l = .ok ([], h0) ∧
          out.2 = prefixLastUser sys h0) := by
  intro n
  induction n with
  | zero =>
    intro l sys hlen _ out h
    have hl : l = [] := List.length_eq_zero.mp (Nat.le_zero.mp hlen)
    subst hl
    left
    refine ⟨rfl, ?_⟩
    simp only [pairLoop] at h
    cases h
    rfl
  | succ n ih =>
    intro l sys hlen hsys out h
    match l with
    | [] =>
      left
      refine ⟨rfl, ?_⟩
      simp only [pairLoop] at h
      cases h
      rfl
    | [m] =>
      exfalso
      by_cases hr : m.role = .user <;> simp [pairLoop, hr] at h
    | u :: a :: rest =>
      right
      refine ⟨by simp, ?_⟩
      by_cases hu : u.role = .user
      · by_cases ha : a.role = .assistant
        · simp only [pairLoop, hu, ha, if_true, if_pos] at h
          by_cases hrest : rest = []
          · subst hrest
            have hlast : (decide (sys ≠ []) && decide (([] : List NMsg) = [])) = true := by
              simp [hsys]
            rw [hlast] at h
            simp only [pairLoop] at h
            cases h
            refine ⟨rfl, [(pyRstrip (pyLstripNl u.content),
              dummyStrip (pyRstrip (pyLstripNl a.content)))], ?_, rfl⟩
            simp [pairLoop, hu, ha]
          · have hlast : (decide (sys ≠ []) && decide (rest = [])) = false := by
              simp [hrest]
            rw [hlast] at h
            simp only [if_false, Bool.false_eq_true, ite_false] at h
            cases hrec : pairLoop sys rest with
            | error e => rw [hrec] at h; cases h
            | ok r =>
              rw [hrec] at h
              cases h
              have hrl : rest.length ≤ n := by
                simp only [List.length_cons] at hlen
                omega
              cases ih rest sys hrl hsys r hrec with
              | inl hcase => exact absurd hcase.1 hrest
              | inr hcase =>
                obtain ⟨_, hr1, h0, hrec0, hr2⟩ := hcase
                have h0ne : h0 ≠ [] := by
                  have := pairLoop_ne_nil ([] : PyStr) rest ([], h0) hrec0 hrest
                  simpa using this
                refine ⟨hr1, (pyRstrip (pyLstripNl u.content),
                  dummyStrip (pyRstrip (pyLstripNl a.content))) :: h0, ?_, ?_⟩
                · simp only [pairLoop, hu, ha, if_true, if_pos]
                  have : (decide (([] : PyStr) ≠ []) && decide (rest = [])) = false := by simp
                  rw [this]
                  simp only [if_false, Bool.false_eq_true, ite_false, hrec0]
                · rw [hr2]
                  cases h0 with
                  | nil => exact absurd rfl h0ne
                  | cons x xs => rfl
        · exfalso
          simp [pairLoop, hu, ha] at h
      · exfalso
        simp [pairLoop, hu] at h

/-- Claim C3: when the remaining system string is non-empty and normalization
succeeds, the result equals the system-free normalization with the system text
prefixed as "<system>\n\nQuestion: <text>" onto the last history turn's user
text (or onto the query when history is empty), and the system is consumed
exactly there. -/
theorem C3_system_prefix (msgs : List ChatMessage) (sys : PyStr) (hf : Bool)
    (r : Option PyStr × List (PyStr × PyStr)) (hsys : sys ≠ [])
    (h : parseMessagesCore msgs sys hf = .ok r) :
    ∃ r0, parseMessagesCore msgs [] hf = .ok r0 ∧ r = applySystemPrefix sys r0 := by
  unfold parseMessagesCore at h ⊢
  cases hn : normLoop hf [] msgs with
  | error e =>
    rw [hn] at h
    exact absurd h (by simp)
  | ok nm =>
    rw [hn] at h
    dsimp only at h ⊢
    cases hq : extractQuery nm with
    | error e =>
      rw [hq] at h
      exact absurd h (by simp)
    | ok qr =>
      rw [hq] at h
      dsimp only at h ⊢
      cases hp : pairLoop sys qr.2 with
      | error e =>
        rw [hp] at h
        exact absurd h (by simp)
      | ok sh =>
        rw [hp] at h
        dsimp only at h
        cases pairLoop_rel qr.2.length qr.2 sys (Nat.le_refl _) hsys sh hp with
        | inl hcase =>
          obtain ⟨hnil, hout⟩ := hcase
          subst hout
          rw [hnil]
          dsimp only [pairLoop] at h ⊢
          rw [if_pos hsys] at h
          cases hqr : qr.1 with
          | none =>
            rw [hqr] at h
            exact absurd h (by simp)
          | some qs =>
            rw [hqr] at h
            cases h
            refine ⟨(some qs, []), ?_, ?_⟩
            · rw [if_neg (by simp)]
            · simp [applySystemPrefix]
        | inr hcase =>
          obtain ⟨hne, hsh1, h0, hrec0, hsh2⟩ := hcase
          rw [if_neg (by simp [hsh1])] at h
          cases h
          have h0ne : h0 ≠ [] := pairLoop_ne_nil ([] : PyStr) qr.2 ([], h0) hrec0 hne
          refine ⟨(qr.1, h0), ?_, ?_⟩
          · rw [hrec0]
            dsimp only
            rw [if_neg (by simp)]
          · simp only [applySystemPrefix, h0ne, if_neg]
            rw [hsh2]
            simp [h0ne]

/-- Claim C3, witness: a one-turn conversation with system "SYS" lands the
system text on the (single, hence last) history turn's user side. -/
theorem C3_wit :
    (pys "SYS" ≠ []) ∧
    ∃ r0, parseMessagesCore [userMsg "q1", assistantMsg "a1"] [] false = .ok r0 ∧
      ((none, [(pys "SYS\n\nQuestion: q1", pys "a1")]) :
        Option PyStr × List (PyStr × PyStr)) = applySystemPrefix (pys "SYS") r0 :=
  ⟨by decide, C3_system_prefix [userMsg "q1", assistantMsg "a1"] (pys "SYS") false
    (none, [(pys "SYS\n\nQuestion: q1", pys "a1")]) (by decide) (by decide)⟩

theorem infix_iff_drop (pat s : PyStr) : pat <:+: s ↔ ∃ q, pat <+: s.drop q := by
  constructor
  · rintro ⟨u, v, rfl⟩
    refine ⟨u.length, ?_⟩
    rw [List.append_assoc, List.drop_left]
    exact ⟨v, rfl⟩
  · rintro ⟨q, h⟩
    exact h.isInfix.trans (List.drop_suffix q s).isInfix

theorem noOcc_of_containsSub (pat s : PyStr) (h : containsSub s pat = false) :
    ∀ q, ¬ pat <+: s.drop q := by
  intro q hq
  have : containsSub s pat = true :=
    (containsSub_iff s pat).mpr ((infix_iff_drop pat s).mpr ⟨q, hq⟩)
  rw [h] at this
  cases this

theorem containsSub_of_occ (pat s : PyStr) (q : Nat) (h : pat <+: s.drop q) :
    containsSub s pat = true :=
  (containsSub_iff s pat).mpr ((infix_iff_drop pat s).mpr ⟨q, h⟩)

theorem rfindFrom_eq_of (s pat : PyStr) (p : Nat) :
    ∀ (m : Nat), p ≤ m → pat.isPrefixOf (s.drop p) = true →
      (∀ t, p < t → t ≤ m → pat.isPrefixOf (s.drop t) = false) →
      rfindFrom s pat m = (p : Int) := by
  intro m
  induction m with
  | zero =>
    intro hpm hp _
    have hp0 : p = 0 := Nat.le_zero.mp hpm
    subst hp0
    simp only [rfindFrom]
    rw [List.drop_zero] at hp
    rw [hp]
    rfl
  | succ m ih =>
    intro hpm hp hno
    by_cases he : p = m + 1
    · subst he
      simp only [rfindFrom, hp]
      rfl
    · have hplt : p ≤ m := by omega
      have hm1 : pat.isPrefixOf (s.drop (m + 1)) = false := hno (m + 1) (by omega) (Nat.le_refl _)
      simp only [rfindFrom, hm1]
      exact ih hplt hp (fun t ht htm => hno t ht (by omega))

theorem pyRfind_eq (s pat : PyStr) (p : Nat) (hple : p ≤ s.length)
    (hp : pat <+: s.drop p) (hno : ∀ t, p < t → ¬ pat <+: s.drop t) :
    pyRfind s pat = (p : Int) := by
  unfold pyRfind
  refine rfindFrom_eq_of s pat p s.length hple
    (List.isPrefixOf_iff_prefix.mpr hp) ?_
  intro t ht _
  cases hb : pat.isPrefixOf (s.drop t) with
  | false => rfl
  | true => exact absurd (List.isPrefixOf_iff_prefix.mp hb) (hno t ht)

theorem pyRfind_concat (u pat v : PyStr) (c : Char) (pt : PyStr) (hpat : pat = c :: pt)
    (hno : containsSub (pt ++ v) pat = false) :
    pyRfind (u ++ (pat ++ v)) pat = (u.length : Int) := by
  refine pyRfind_eq (u ++ (pat ++ v)) pat u.length (by simp) ?_ ?_
  · rw [List.drop_left]
    exact ⟨v, rfl⟩
  · intro t ht hpre
    have hd : ∃ d, t = u.length + (d + 1) := ⟨t - u.length - 1, by omega⟩
    obtain ⟨d, rfl⟩ := hd
    rw [List.drop_append] at hpre
    have : (pat ++ v).drop (d + 1) = (pt ++ v).drop d := by
      rw [hpat]
      simp [List.drop_succ_cons]
    rw [this] at hpre
    exact noOcc_of_containsSub pat (pt ++ v) hno d hpre

theorem prefix_append_split (pat z w : PyStr) (h : pat <+: z ++ w) :
    pat <+: z ∨
    (z.length < pat.length ∧ z = pat.take z.length ∧ pat.drop z.length <+: w) := by
  by_cases hl : pat.length ≤ z.length
  · exact Or.inl ((List.isPrefix_append_of_length hl).mp h)
  · right
    have he : pat = (z ++ w).take pat.length := List.prefix_iff_eq_take.mp h
    refine ⟨by omega, ?_, ?_⟩
    · have h2 : pat.take z.length = z := by
        rw [he, List.take_take, Nat.min_eq_left (by omega), List.take_left]
      exact h2.symm
    · rw [he, List.drop_take, List.drop_left]
      exact List.take_prefix _ _

theorem containsSub_append_false (pat xs ys : PyStr) (hpat : pat ≠ [])
    (hin : containsSub xs pat = false)
    (hspan : ∀ d, 0 < d → d < pat.length → pat.take d <:+ xs → ¬ pat.drop d <+: ys)
    (hy : containsSub ys pat = false) :
    containsSub (xs ++ ys) pat = false := by
  cases hc : containsSub (xs ++ ys) pat with
  | false => rfl
  | true =>
    exfalso
    obtain ⟨q, hq⟩ := (infix_iff_drop pat (xs ++ ys)).mp ((containsSub_iff _ _).mp hc)
    by_cases hql : q < xs.length
    · rw [List.drop_append_of_le_length (by omega)] at hq
      cases prefix_append_split pat (xs.drop q) ys hq with
      | inl hleft => exact noOcc_of_containsSub pat xs hin q hleft
      | inr hright =>
        obtain ⟨hlt, heq, hdrop⟩ := hright
        have hdlen : (xs.drop q).length = xs.length - q := List.length_drop q xs
        have hdpos : 0 < (xs.drop q).length := by omega
        refine hspan (xs.drop q).length hdpos hlt ?_ hdrop
        rw [← heq]
        exact List.drop_suffix q xs
    · have hd : ∃ d, q = xs.length + d := ⟨q - xs.length, by omega⟩
      obtain ⟨d, rfl⟩ := hd
      rw [List.drop_append] at hq
      exact noOcc_of_containsSub pat ys hy d hq

theorem head?_of_prefix {a b : PyStr} (h : a <+: b) (hne : a ≠ []) :
    b.head? = a.head? := by
  obtain ⟨t, rfl⟩ := h
  cases a with
  | nil => exact absurd rfl hne
  | cons x l => rfl

theorem span_head (pat xs ys : PyStr) (c : Char) (hhd : pat.head? = some c)
    (huniq : ∀ d, 0 < d → d < pat.length → pat[d]? ≠ some c)
    (hy : ys.head? = some c) :
    ∀ d, 0 < d → d < pat.length → pat.take d <:+ xs → ¬ pat.drop d <+: ys := by
  intro d hd hdl _ hpre
  have hne : pat.drop d ≠ [] := by
    intro hc
    have := List.length_drop d pat
    rw [hc] at this
    simp only [List.length_nil] at this
    omega
  have h1 : ys.head? = (pat.drop d).head? := head?_of_prefix hpre hne
  rw [List.head?_drop] at h1
  exact huniq d hd hdl (by rw [← h1, hy])

theorem getLast?_of_suffix {a b : PyStr} (h : a <:+ b) (hne : a ≠ []) :
    b.getLast? = a.getLast? := by
  obtain ⟨t, rfl⟩ := h
  exact List.getLast?_append_of_ne_nil t hne

theorem span_last (pat xs ys : PyStr) (c : Char) (hlast : xs.getLast? = some c)
    (hc : ∀ d, d + 1 < pat.length → pat[d]? ≠ some c) :
    ∀ d, 0 < d → d < pat.length → pat.take d <:+ xs → ¬ pat.drop d <+: ys := by
  intro d hd hdl hsuf _
  have htne : pat.take d ≠ [] := by
    intro hcn
    have := List.length_take d pat
    rw [hcn] at this
    simp only [List.length_nil] at this
    omega
  have h1 : xs.getLast? = (pat.take d).getLast? := getLast?_of_suffix hsuf htne
  have h2 : (pat.take d).getLast? = pat[d - 1]? := by
    rw [List.getLast?_eq_getElem?]
    have hlen : (pat.take d).length = d := by
      rw [List.length_take]
      omega
    rw [hlen]
    exact List.getElem?_take_of_lt (by omega)
  rw [h2, hlast] at h1
  exact hc (d - 1) (by omega) h1.symm

theorem span_no_take (pat xs ys : PyStr)
    (h : ∀ d, d < pat.length → (0 < d → ¬ pat.take d <:+ xs)) :
    ∀ d, 0 < d → d < pat.length → pat.take d <:+ xs → ¬ pat.drop d <+: ys :=
  fun d hd hdl hsuf _ => absurd hsuf (h d hdl hd)

theorem getElem?_of_prefix {a b : PyStr} (h : a <+: b) (i : Nat) (hi : i < a.length) :
    b[i]? = a[i]? := by
  obtain ⟨t, rfl⟩ := h
  exact List.getElem?_append_left hi

theorem pyRstrip_fix_of_last (ys : PyStr) (c : Char) (hc : pyIsSpace c = false) :
    pyRstrip (ys ++ [c]) = ys ++ [c] := by
  unfold pyRstrip
  rw [List.reverse_append]
  simp only [List.reverse_cons, List.reverse_nil, List.nil_append, List.singleton_append,
    List.dropWhile_cons, hc]
  simp

theorem pyRstrip_append_generic (X Z : PyStr) (hX : pyRstrip X = X) :
    pyRstrip (X ++ Z) = X ++ pyRstrip Z := by
  by_cases hz : pyRstrip Z = []
  · rw [pyRstrip_append_of_nil _ _ hz, hX, hz, List.append_nil]
  · exact pyRstrip_append_of_ne _ _ hz

theorem pyLstripNl_append_of_ne (u v : PyStr) (h : pyLstripNl u ≠ []) :
    pyLstripNl (u ++ v) = pyLstripNl u ++ v := by
  unfold pyLstripNl at h ⊢
  rw [List.dropWhile_append]
  have h2 : (u.dropWhile (fun c => c == '\n')).isEmpty = false := by
    cases hh : u.dropWhile (fun c => c == '\n') with
    | nil => exact absurd hh h
    | cons x l => rfl
  rw [h2]
  simp

theorem pyLstripNl_of_head (l : PyStr) (x : Char) (hh : l.head? = some x)
    (hx : (x == '\n') = false) : pyLstripNl l = l := by
  cases l with
  | nil => rfl
  | cons y t =>
    cases hh
    unfold pyLstripNl
    rw [List.dropWhile_cons, hx]
    simp

theorem head?_dropWhile_ne (p : Char → Bool) (l : PyStr) :
    ∀ x, (l.dropWhile p).head? = some x → p x = false := by
  induction l with
  | nil => intro x h; cases h
  | cons y t ih =>
    intro x h
    rw [List.dropWhile_cons] at h
    by_cases hp : p y
    · rw [if_pos hp] at h
      exact ih x h
    · rw [if_neg hp] at h
      cases h
      exact bool_eq_false_of_not_true hp

theorem pyRstrip_idem (s : PyStr) : pyRstrip (pyRstrip s) = pyRstrip s := by
  unfold pyRstrip
  rw [List.reverse_reverse, List.dropWhile_idempotent]

theorem pystrip_rstrip (s : PyStr) : pystrip (pyRstrip s) = pystrip s := by
  unfold pystrip
  rw [pyRstrip_idem]

theorem pystrip_space_cons (s : PyStr) : pystrip (' ' :: s) = pystrip s := by
  have h : (' ' :: s) = [' '] ++ s := rfl
  by_cases hs : pyRstrip s = []
  · have h1 : pyRstrip [' '] = [] := by decide
    have h2 : pystrip (' ' :: s) = [] := by
      rw [pystrip, h, pyRstrip_append_of_nil _ _ hs, h1]
      rfl
    have h3 : pystrip s = [] := by
      rw [pystrip, hs]
      rfl
    rw [h2, h3]
  · rw [pystrip, h, pyRstrip_append_of_ne _ _ hs, pystrip]
    show pyLstripWs (' ' :: pyRstrip s) = pyLstripWs (pyRstrip s)
    unfold pyLstripWs
    rw [List.dropWhile_cons]
    simp [pyIsSpace]

theorem pyRstrip_pre (s : PyStr) : pyRstrip s <+: s := by
  obtain ⟨m, hm⟩ := pyRstrip_take s
  rw [hm]
  exact List.take_prefix m s

theorem dummyStripOne_shape (C R t0 : PyStr)
    (hR1 : R.head? = some '\n') (hR2 : R[1]? = some 'A')
    (ht : ∀ d, d < (pyLstripNl t0).length - 1 →
      ((pyLstripNl t0)[d]? = some '\n' → (pyLstripNl t0)[d + 1]? ≠ some 'A'))
    (hlast : (pyLstripNl t0).getLast? ≠ some '\n') :
    ∃ C2, dummyStripOne (C ++ R) t0 = C2 ++ R := by
  unfold dummyStripOne
  by_cases hcond : ((pyLstripNl t0).isPrefixOf (C ++ R) &&
      containsSub (C ++ R) (pys "\nAction: ")) = true
  · rw [if_pos hcond]
    have hpre : pyLstripNl t0 <+: C ++ R :=
      List.isPrefixOf_iff_prefix.mp (Bool.and_elim_left hcond)
    have hle : (pyLstripNl t0).length ≤ C.length := by
      by_contra hgt
      cases prefix_append_split (pyLstripNl t0) C R hpre with
      | inl hl => exact hgt (hl.length_le)
      | inr hr =>
        obtain ⟨hlt, hCeq, hdrop⟩ := hr
        have hdne : (pyLstripNl t0).drop C.length ≠ [] := by
          intro hc
          have := List.length_drop C.length (pyLstripNl t0)
          rw [hc] at this
          simp only [List.length_nil] at this
          omega
        have hhd : R.head? = ((pyLstripNl t0).drop C.length).head? :=
          head?_of_prefix hdrop hdne
        rw [List.head?_drop] at hhd
        have hCd : (pyLstripNl t0)[C.length]? = some '\n' := by
          rw [← hhd, hR1]
        by_cases hl2 : C.length + 1 < (pyLstripNl t0).length
        · have hidx : (1 : Nat) < ((pyLstripNl t0).drop C.length).length := by
            rw [List.length_drop]
            omega
          have hA : R[1]? = ((pyLstripNl t0).drop C.length)[1]? :=
            getElem?_of_prefix hdrop 1 hidx
          rw [List.getElem?_drop] at hA
          exact ht C.length (by omega) hCd (by rw [← hA, hR2])
        · have hone : (pyLstripNl t0).length = C.length + 1 := by omega
          have hsing : (pyLstripNl t0).getLast? = some '\n' := by
            have hsuf : (pyLstripNl t0).drop C.length <:+ pyLstripNl t0 :=
              List.drop_suffix _ _
            have := getLast?_of_suffix hsuf hdne
            rw [this]
            have hlen1 : ((pyLstripNl t0).drop C.length).length = 1 := by
              rw [List.length_drop]
              omega
            cases hd : (pyLstripNl t0).drop C.length with
            | nil => exact absurd hd hdne
            | cons x l =>
              cases l with
              | nil =>
                have hx : (pyLstripNl t0)[C.length]? = some x := by
                  rw [← List.head?_drop, hd]
                  rfl
                rw [hCd] at hx
                cases hx
                rfl
              | cons y l2 =>
                rw [hd] at hlen1
                simp at hlen1
          exact hlast hsing
    refine ⟨C.drop (pyLstripNl t0).length, ?_⟩
    rw [List.drop_append_of_le_length hle]
  · rw [if_neg (by simpa using hcond)]
    exact ⟨C, rfl⟩

theorem dummyStrip_shape (C R : PyStr)
    (hR1 : R.head? = some '\n') (hR2 : R[1]? = some 'A') :
    ∃ C2, dummyStrip (C ++ R) = C2 ++ R := by
  obtain ⟨C1, h1⟩ := dummyStripOne_shape C R dummyEn hR1 hR2 (by decide) (by decide)
  unfold dummyStrip
  rw [h1]
  exact dummyStripOne_shape C1 R dummyZh hR1 hR2 (by decide) (by decide)

theorem foldBot_norm (q c n a r : PyStr) (hcne : c ≠ []) :
    normLoop false [] [(⟨.user, some q, none⟩ : ChatMessage),
      ⟨.assistant, some c, some (n, a)⟩, ⟨.function, some r, none⟩] =
    .ok [⟨.user, pyRstrip (pyLstripNl q)⟩,
      ⟨.assistant, (pyRstrip (pyLstripNl (pys "\n" ++ (c ++ (pys "\nAction: " ++
        (n ++ (pys "\nAction Input: " ++ a)))))) ++ (pys "\nObservation: " ++ r)) ++
        pys "\nThought:"⟩] := by
  simp only [normLoop, Option.getD_some]
  rw [if_neg hcne]
  simp [normLoop]

theorem foldBot_core (q c n a r : PyStr) (hcne : c ≠ []) :
    parseMessagesCore [(⟨.user, some q, none⟩ : ChatMessage),
      ⟨.assistant, some c, some (n, a)⟩, ⟨.function, some r, none⟩] [] false =
    .ok (none, [(pyRstrip (pyLstripNl (pyRstrip (pyLstripNl q))),
      dummyStrip (pyRstrip (pyLstripNl ((pyRstrip (pyLstripNl (pys "\n" ++ (c ++
        (pys "\nAction: " ++ (n ++ (pys "\nAction Input: " ++ a)))))) ++
        (pys "\nObservation: " ++ r)) ++ pys "\nThought:"))))]) := by
  unfold parseMessagesCore
  rw [foldBot_norm q c n a r hcne]
  simp only [extractQuery, List.getLast?]
  simp [pairLoop, extractQuery]

theorem pyLstripNl_idem (s : PyStr) : pyLstripNl (pyLstripNl s) = pyLstripNl s := by
  unfold pyLstripNl
  exact List.dropWhile_idempotent _ _

theorem step1_lstrip (c X : PyStr) (hc : pyLstripNl c ≠ []) :
    pyLstripNl (pys "\n" ++ (c ++ X)) = pyLstripNl c ++ X := by
  have h0 : pys "\n" ++ (c ++ X) = '\n' :: (c ++ X) := rfl
  rw [h0]
  have h1 : pyLstripNl ('\n' :: (c ++ X)) = pyLstripNl (c ++ X) := by
    unfold pyLstripNl
    rw [List.dropWhile_cons]
    simp
  rw [h1]
  exact pyLstripNl_append_of_ne c X hc

theorem bot0_canonical (c n a r : PyStr) (hc : pyLstripNl c ≠ []) :
    pyRstrip (pyLstripNl ((pyRstrip (pyLstripNl (pys "\n" ++ (c ++ (pys "\nAction: " ++
      (n ++ (pys "\nAction Input: " ++ a)))))) ++ (pys "\nObservation: " ++ r)) ++
      pys "\nThought:")) =
    pyLstripNl c ++ (actionM ++ ([' '] ++ (n ++ (actionInputM ++ (pyRstrip ([' '] ++ a) ++
      (obsM ++ ([' '] ++ (r ++ pys "\nThought:")))))))) := by
  have hI : pys "\nAction Input: " = actionInputM ++ [' '] := by decide
  have hIc : actionInputM = pys "\nAction Input" ++ [':'] := by decide
  have hT : pys "\nThought:" = pys "\nThought" ++ [':'] := by decide
  rw [step1_lstrip c _ hc]
  have e2 : pyLstripNl c ++ (pys "\nAction: " ++ (n ++ (pys "\nAction Input: " ++ a))) =
      ((pyLstripNl c ++ (pys "\nAction: " ++ (n ++ pys "\nAction Input"))) ++ [':']) ++
        ([' '] ++ a) := by
    rw [hI, hIc]
    simp [List.append_assoc]
  rw [e2]
  rw [pyRstrip_append_generic _ _ (pyRstrip_fix_of_last _ ':' (by decide))]
  have e3 : ((((pyLstripNl c ++ (pys "\nAction: " ++ (n ++ pys "\nAction Input"))) ++ [':']) ++
      pyRstrip ([' '] ++ a)) ++ (pys "\nObservation: " ++ r)) ++ pys "\nThought:" =
      pyLstripNl c ++ ((pys "\nAction: " ++ ((n ++ pys "\nAction Input") ++ ([':'] ++
        (pyRstrip ([' '] ++ a) ++ (pys "\nObservation: " ++ (r ++ pys "\nThought")))))) ++ [':']) := by
    rw [hT]
    simp [List.append_assoc]
  rw [e3]
  rw [← List.append_assoc]
  have hlne : pyLstripNl (pyLstripNl c) ≠ [] := by
    rw [pyLstripNl_idem]
    exact hc
  rw [List.append_assoc, pyLstripNl_append_of_ne _ _ hlne, pyLstripNl_idem,
    ← List.append_assoc, pyRstrip_fix_of_last _ ':' (by decide)]
  have hA : pys "\nAction: " = actionM ++ [' '] := by decide
  have hO : pys "\nObservation: " = obsM ++ [' '] := by decide
  simp [hA, hO, hIc, hT, List.append_assoc]

theorem parseFR_canonical (C2 n B r : PyStr)
    (hnn : pystrip n ≠ [])
    (hn1 : containsSub n actionM = false)
    (hB1 : containsSub B actionM = false) (hB2 : containsSub B actionInputM = false)
    (hr1 : containsSub r actionM = false) (hr2 : containsSub r actionInputM = false)
    (hr3 : containsSub r obsM = false) :
    parseFunctionResponse (C2 ++ (actionM ++ ([' '] ++ (n ++ (actionInputM ++
      (B ++ (obsM ++ ([' '] ++ (r ++ pys "\nThought:"))))))))) =
    some ⟨C2, pystrip n, pystrip B⟩ := by
  have hMne : actionM ≠ [] := by decide
  have hIne : actionInputM ≠ [] := by decide
  have hOne : obsM ≠ [] := by decide
  have huA : ∀ d, 0 < d → d < actionM.length → actionM[d]? ≠ some '\n' := by
    have h : ∀ d, d < actionM.length → (0 < d → actionM[d]? ≠ some '\n') := by decide
    exact fun d h1 h2 => h d h2 h1
  have huI : ∀ d, 0 < d → d < actionInputM.length → actionInputM[d]? ≠ some '\n' := by
    have h : ∀ d, d < actionInputM.length → (0 < d → actionInputM[d]? ≠ some '\n') := by decide
    exact fun d h1 h2 => h d h2 h1
  have huO : ∀ d, 0 < d → d < obsM.length → obsM[d]? ≠ some '\n' := by
    have h : ∀ d, d < obsM.length → (0 < d → obsM[d]? ≠ some '\n') := by decide
    exact fun d h1 h2 => h d h2 h1
  have hcA : ∀ d, d + 1 < actionM.length → actionM[d]? ≠ some ':' := by
    have h : ∀ d, d < actionM.length - 1 → actionM[d]? ≠ some ':' := by decide
    exact fun d hd => h d (by omega)
  have hcI : ∀ d, d + 1 < actionInputM.length → actionInputM[d]? ≠ some ':' := by
    have h : ∀ d, d < actionInputM.length - 1 → actionInputM[d]? ≠ some ':' := by decide
    exact fun d hd => h d (by omega)
  have hcO : ∀ d, d + 1 < obsM.length → obsM[d]? ≠ some ':' := by
    have h : ∀ d, d < obsM.length - 1 → obsM[d]? ≠ some ':' := by decide
    exact fun d hd => h d (by omega)
  -- chain for the actionM search
  have c1t : containsSub (pys "\nThought:") actionM = false := by decide
  have c1r : containsSub (r ++ pys "\nThought:") actionM = false := by
    refine containsSub_append_false actionM r _ hMne hr1
      (span_head actionM r _ '\n' (by decide) huA (by rfl)) c1t
  have c1sp : containsSub ([' '] ++ (r ++ pys "\nThought:")) actionM = false := by
    refine containsSub_append_false actionM [' '] _ hMne (by decide)
      (span_no_take _ _ _ (by decide)) c1r
  have c1o : containsSub (obsM ++ ([' '] ++ (r ++ pys "\nThought:"))) actionM = false := by
    refine containsSub_append_false actionM obsM _ hMne (by decide)
      (span_last actionM obsM _ ':' (by decide) hcA) c1sp
  have c1B : containsSub (B ++ (obsM ++ ([' '] ++ (r ++ pys "\nThought:")))) actionM = false := by
    refine containsSub_append_false actionM B _ hMne hB1
      (span_head actionM B _ '\n' (by decide) huA (by rfl)) c1o
  have c1I : containsSub (actionInputM ++ (B ++ (obsM ++ ([' '] ++ (r ++ pys "\nThought:")))))
      actionM = false := by
    refine containsSub_append_false actionM actionInputM _ hMne (by decide)
      (span_last actionM actionInputM _ ':' (by decide) hcA) c1B
  have c1n : containsSub (n ++ (actionInputM ++ (B ++ (obsM ++ ([' '] ++ (r ++ pys "\nThought:"))))))
      actionM = false := by
    refine containsSub_append_false actionM n _ hMne hn1
      (span_head actionM n _ '\n' (by decide) huA (by rfl)) c1I
  have c1sp2 : containsSub ([' '] ++ (n ++ (actionInputM ++ (B ++ (obsM ++ ([' '] ++
      (r ++ pys "\nThought:"))))))) actionM = false := by
    refine containsSub_append_false actionM [' '] _ hMne (by decide)
      (span_no_take _ _ _ (by decide)) c1n
  have c1a : containsSub (pys "Action:" ++ ([' '] ++ (n ++ (actionInputM ++ (B ++ (obsM ++
      ([' '] ++ (r ++ pys "\nThought:")))))))) actionM = false := by
    refine containsSub_append_false actionM (pys "Action:") _ hMne (by decide)
      (span_last actionM (pys "Action:") _ ':' (by decide) hcA) c1sp2
  have hi : pyRfind (C2 ++ (actionM ++ ([' '] ++ (n ++ (actionInputM ++ (B ++ (obsM ++
      ([' '] ++ (r ++ pys "\nThought:")))))))) ) actionM = (C2.length : Int) :=
    pyRfind_concat C2 actionM _ '\n' (pys "Action:") (by decide) c1a
  -- chain for the actionInputM search
  have c2t : containsSub (pys "\nThought:") actionInputM = false := by decide
  have c2r : containsSub (r ++ pys "\nThought:") actionInputM = false := by
    refine containsSub_append_false actionInputM r _ hIne hr2
      (span_head actionInputM r _ '\n' (by decide) huI (by rfl)) c2t
  have c2sp : containsSub ([' '] ++ (r ++ pys "\nThought:")) actionInputM = false := by
    refine containsSub_append_false actionInputM [' '] _ hIne (by decide)
      (span_no_take _ _ _ (by decide)) c2r
  have c2o : containsSub (obsM ++ ([' '] ++ (r ++ pys "\nThought:"))) actionInputM = false := by
    refine containsSub_append_false actionInputM obsM _ hIne (by decide)
      (span_last actionInputM obsM _ ':' (by decide) hcI) c2sp
  have c2B : containsSub (B ++ (obsM ++ ([' '] ++ (r ++ pys "\nThought:"))))
      actionInputM = false := by
    refine containsSub_append_false actionInputM B _ hIne hB2
      (span_head actionInputM B _ '\n' (by decide) huI (by rfl)) c2o
  have c2ai : containsSub (pys "Action Input:" ++ (B ++ (obsM ++ ([' '] ++
      (r ++ pys "\nThought:"))))) actionInputM = false := by
    refine containsSub_append_false actionInputM (pys "Action Input:") _ hIne (by decide)
      (span_last actionInputM (pys "Action Input:") _ ':' (by decide) hcI) c2B
  have hassoc2 : C2 ++ (actionM ++ ([' '] ++ (n ++ (actionInputM ++ (B ++ (obsM ++
      ([' '] ++ (r ++ pys "\nThought:")))))))) =
      (C2 ++ (actionM ++ ([' '] ++ n))) ++ (actionInputM ++ (B ++ (obsM ++
        ([' '] ++ (r ++ pys "\nThought:"))))) := by
    simp [List.append_assoc]
  have hj : pyRfind (C2 ++ (actionM ++ ([' '] ++ (n ++ (actionInputM ++ (B ++ (obsM ++
      ([' '] ++ (r ++ pys "\nThought:")))))))) ) actionInputM =
      ((C2 ++ (actionM ++ ([' '] ++ n))).length : Int) := by
    rw [hassoc2]
    exact pyRfind_concat _ actionInputM _ '\n' (pys "Action Input:") (by decide) c2ai
  -- chain for the obsM search
  have c3t : containsSub (pys "\nThought:") obsM = false := by decide
  have c3r : containsSub (r ++ pys "\nThought:") obsM = false := by
    refine containsSub_append_false obsM r _ hOne hr3
      (span_head obsM r _ '\n' (by decide) huO (by rfl)) c3t
  have c3sp : containsSub ([' '] ++ (r ++ pys "\nThought:")) obsM = false := by
    refine containsSub_append_false obsM [' '] _ hOne (by decide)
      (span_no_take _ _ _ (by decide)) c3r
  have c3ob : containsSub (pys "Observation:" ++ ([' '] ++ (r ++ pys "\nThought:")))
      obsM = false := by
    refine containsSub_append_false obsM (pys "Observation:") _ hOne (by decide)
      (span_last obsM (pys "Observation:") _ ':' (by decide) hcO) c3sp
  have hassoc3 : C2 ++ (actionM ++ ([' '] ++ (n ++ (actionInputM ++ (B ++ (obsM ++
      ([' '] ++ (r ++ pys "\nThought:")))))))) =
      (C2 ++ (actionM ++ ([' '] ++ (n ++ (actionInputM ++ B))))) ++ (obsM ++
        ([' '] ++ (r ++ pys "\nThought:"))) := by
    simp [List.append_assoc]
  have hk : pyRfind (C2 ++ (actionM ++ ([' '] ++ (n ++ (actionInputM ++ (B ++ (obsM ++
      ([' '] ++ (r ++ pys "\nThought:")))))))) ) obsM =
      ((C2 ++ (actionM ++ ([' '] ++ (n ++ (actionInputM ++ B))))).length : Int) := by
    rw [hassoc3]
    exact pyRfind_concat _ obsM _ '\n' (pys "Observation:") (by decide) c3ob
  have hlenM : actionM.length = 8 := by decide
  have hlenI : actionInputM.length = 14 := by decide
  have hU2 : (C2 ++ (actionM ++ ([' '] ++ n))).length = C2.length + 9 + n.length := by
    simp only [List.length_append, List.length_cons, List.length_nil, hlenM]
    omega
  have hU3 : (C2 ++ (actionM ++ ([' '] ++ (n ++ (actionInputM ++ B))))).length =
      C2.length + 23 + n.length + B.length := by
    simp only [List.length_append, List.length_cons, List.length_nil, hlenM, hlenI]
    omega
  simp only [parseFunctionResponse]
  rw [hi, hj, hk]
  rw [hU2, hU3]
  rw [if_pos (⟨by omega, by omega⟩ : (0 : Int) ≤ (C2.length : Int) ∧
    (C2.length : Int) < ((C2.length + 9 + n.length : Nat) : Int))]
  rw [if_neg (show ¬ ((C2.length + 23 + n.length + B.length : Nat) : Int) <
    ((C2.length + 9 + n.length : Nat) : Int) by omega)]
  rw [hk, hU3]
  have e1 : ((C2.length : Int) + (actionM.length : Int)).toNat =
      C2.length + actionM.length := by omega
  have e2 : (((C2.length + 9 + n.length : Nat) : Int)).toNat =
      C2.length + 9 + n.length := by omega
  have e3 : (((C2.length + 9 + n.length : Nat) : Int) + (actionInputM.length : Int)).toNat =
      C2.length + 9 + n.length + actionInputM.length := by omega
  have e4 : (((C2.length + 23 + n.length + B.length : Nat) : Int)).toNat =
      C2.length + 23 + n.length + B.length := by omega
  have e5 : ((0 : Int)).toNat = 0 := rfl
  have e6 : (((C2.length : Nat) : Int)).toNat = C2.length := by omega
  have hsl1 : pySliceI (C2 ++ (actionM ++ ([' '] ++ (n ++ (actionInputM ++ (B ++ (obsM ++
      ([' '] ++ (r ++ pys "\nThought:")))))))))
      ((C2.length : Int) + (actionM.length : Int))
      ((C2.length + 9 + n.length : Nat) : Int) = [' '] ++ n := by
    unfold pySliceI
    rw [e1, e2]
    unfold pySlice
    rw [← hU2, hassoc2, List.take_left]
    have hA2 : C2 ++ (actionM ++ ([' '] ++ n)) = (C2 ++ actionM) ++ ([' '] ++ n) := by
      simp [List.append_assoc]
    have hl : (C2 ++ actionM).length = C2.length + actionM.length := List.length_append _ _
    rw [hA2, ← hl, List.drop_left]
  have hsl2 : pySliceI (C2 ++ (actionM ++ ([' '] ++ (n ++ (actionInputM ++ (B ++ (obsM ++
      ([' '] ++ (r ++ pys "\nThought:")))))))))
      (((C2.length + 9 + n.length : Nat) : Int) + (actionInputM.length : Int))
      ((C2.length + 23 + n.length + B.length : Nat) : Int) = B := by
    unfold pySliceI
    rw [e3, e4]
    unfold pySlice
    rw [← hU3, hassoc3, List.take_left]
    have hA3 : C2 ++ (actionM ++ ([' '] ++ (n ++ (actionInputM ++ B)))) =
        ((C2 ++ (actionM ++ ([' '] ++ n))) ++ actionInputM) ++ B := by
      simp [List.append_assoc]
    have hl2 : ((C2 ++ (actionM ++ ([' '] ++ n))) ++ actionInputM).length =
        C2.length + 9 + n.length + actionInputM.length := by
      rw [List.length_append, hU2]
    rw [hA3, ← hl2, List.drop_left]
  have hcontent : pySliceI (C2 ++ (actionM ++ ([' '] ++ (n ++ (actionInputM ++ (B ++ (obsM ++
      ([' '] ++ (r ++ pys "\nThought:")))))))))
      0 ((C2.length : Nat) : Int) = C2 := by
    unfold pySliceI
    rw [e5, e6]
    unfold pySlice
    rw [List.drop_zero, List.take_left]
  rw [hsl1, hsl2, hcontent]
  have hsp : ([' '] ++ n) = ' ' :: n := rfl
  rw [hsp, pystrip_space_cons]
  rw [if_pos hnn]

/-- Claim C5, amended: folding a function call (name, arguments) with a
function-result continuation into assistant text and re-parsing that text with
the function-call extractor recovers the same name and arguments up to
leading/trailing whitespace trimming, provided the name, the arguments and the
function-result content do not contain the marker strings, the name is not
pure whitespace, and the assistant content has a non-newline character (an
all-newline content is eaten by lstrip together with the marker's newline, as
the counterexample shows). -/
theorem C5_roundtrip (q c n a r : PyStr)
    (hc : pyLstripNl c ≠ []) (hnn : pystrip n ≠ [])
    (hn1 : containsSub n actionM = false) (hn2 : containsSub n actionInputM = false)
    (hn3 : containsSub n obsM = false)
    (ha1 : containsSub a actionM = false) (ha2 : containsSub a actionInputM = false)
    (ha3 : containsSub a obsM = false)
    (hr1 : containsSub r actionM = false) (hr2 : containsSub r actionInputM = false)
    (hr3 : containsSub r obsM = false) :
    ∃ usr bot fd,
      parseMessagesCore [(⟨.user, some q, none⟩ : ChatMessage),
        ⟨.assistant, some c, some (n, a)⟩, ⟨.function, some r, none⟩] [] false =
        .ok (none, [(usr, bot)]) ∧
      parseFunctionResponse bot = some fd ∧ fd.name = pystrip n ∧ fd.args = pystrip a := by
  have hcne : c ≠ [] := by
    intro h
    rw [h] at hc
    exact hc rfl
  have hcore := foldBot_core q c n a r hcne
  rw [bot0_canonical c n a r hc] at hcore
  obtain ⟨C2, hC2⟩ := dummyStrip_shape (pyLstripNl c)
    (actionM ++ ([' '] ++ (n ++ (actionInputM ++ (pyRstrip ([' '] ++ a) ++ (obsM ++
      ([' '] ++ (r ++ pys "\nThought:")))))))) (by rfl) (by rfl)
  rw [hC2] at hcore
  have hBpre : pyRstrip ([' '] ++ a) <:+: ([' '] ++ a) := (pyRstrip_pre _).isInfix
  have hB1 : containsSub (pyRstrip ([' '] ++ a)) actionM = false := by
    refine containsSub_false_of_infix hBpre ?_
    refine containsSub_append_false actionM [' '] a (by decide) (by decide)
      (span_no_take _ _ _ (by decide)) ha1
  have hB2 : containsSub (pyRstrip ([' '] ++ a)) actionInputM = false := by
    refine containsSub_false_of_infix hBpre ?_
    refine containsSub_append_false actionInputM [' '] a (by decide) (by decide)
      (span_no_take _ _ _ (by decide)) ha2
  refine ⟨_, _, _, hcore,
    parseFR_canonical C2 n (pyRstrip ([' '] ++ a)) r hnn hn1 hB1 hB2 hr1 hr2 hr3, rfl, ?_⟩
  show pystrip (pyRstrip ([' '] ++ a)) = pystrip a
  rw [pystrip_rstrip]
  have hsp : ([' '] ++ a) = ' ' :: a := rfl
  rw [hsp, pystrip_space_cons]


/-- Claim C5, counterexample: with assistant content "\n" (and marker-free
fields), the append-time lstrip("\n") swallows the newline that belongs to the
"\nAction:" marker, and re-parsing the folded text recovers no function call
at all. -/
theorem C5_cex :
    parseMessagesCore [(⟨.user, some (pys "q"), none⟩ : ChatMessage),
      ⟨.assistant, some (pys "\n"), some (pys "f", pys "x=1")⟩,
      ⟨.function, some (pys "22"), none⟩] [] false =
      .ok (none, [(pys "q", pys "Action: f\nAction Input: x=1\nObservation: 22\nThought:")]) ∧
    parseFunctionResponse
      (pys "Action: f\nAction Input: x=1\nObservation: 22\nThought:") = none ∧
    containsSub (pys "f") actionM = false ∧ containsSub (pys "x=1") actionM = false := by
  refine ⟨by decide, by decide, by decide, by decide⟩

/-- Claim C5, witness: a concrete weather-tool round trip recovers the folded
name and arguments. -/
theorem C5_wit :
    (pyLstripNl (pys "I should call the weather tool") ≠ []) ∧
    (pystrip (pys "get_weather") ≠ []) ∧
    ∃ usr bot fd,
      parseMessagesCore [(⟨.user, some (pys "what is the weather"), none⟩ : ChatMessage),
        ⟨.assistant, some (pys "I should call the weather tool"),
          some (pys "get_weather", pys "city=Boston")⟩,
        ⟨.function, some (pys "temp=22"), none⟩] [] false = .ok (none, [(usr, bot)]) ∧
      parseFunctionResponse bot = some fd ∧
      fd.name = pystrip (pys "get_weather") ∧ fd.args = pystrip (pys "city=Boston") :=
  ⟨by decide, by decide,
    C5_roundtrip (pys "what is the weather") (pys "I should call the weather tool")
      (pys "get_weather") (pys "city=Boston") (pys "temp=22")
      (by decide) (by decide) (by decide) (by decide) (by decide) (by decide)
      (by decide) (by decide) (by decide) (by decide) (by decide)⟩
